import Mathlib

/-!
Verification of the machina-trinity agent runtime against its natural-language
specification.  Each Python module relevant to the claims is shallowly embedded
as executable Lean definitions (machine integers as Nat/Int, floats as exact
rationals or reals where transcendental functions appear, fallible operations
as Option), and the spec claims are settled as theorems about those
definitions.
-/

namespace Machina

/-! ## String helpers

Python string primitives (`.lower()`, `in`, slicing, `.split(",")`,
`.strip()`) modeled as structural recursion over the character list, so that
concrete evaluations reduce in the kernel.  Lowercasing maps the ASCII
range; the repository's data never mixes case outside ASCII (Korean has no
case). -/

/-- Lowercase a character (ASCII range, as Python `str.lower` on the data
appearing in this repository). -/
def lowerChar (c : Char) : Char :=
  if 'A' ≤ c ∧ c ≤ 'Z' then Char.ofNat (c.toNat + 32) else c

/-- Python `s.lower()`. -/
def strLower (s : String) : String := ⟨s.data.map lowerChar⟩

/-- Boolean prefix test on character lists. -/
def listPrefixOf : List Char → List Char → Bool
| [], _ => true
| _ :: _, [] => false
| a :: as, b :: bs => a == b && listPrefixOf as bs

/-- Helper for the substring test: does `needle` occur in the list? -/
def containsAux (needle : List Char) : List Char → Bool
| [] => needle.isEmpty
| c :: rest => listPrefixOf needle (c :: rest) || containsAux needle rest

/-- Python `needle in hay` on strings. -/
def strContains (hay needle : String) : Bool := containsAux needle.data hay.data

/-- Python `s[:n]` (character slicing; the repository's slices are used on
short prefixes where bytes and characters agree in spirit). -/
def strTake (s : String) (n : Nat) : String := ⟨s.data.take n⟩

/-- Python `s.split(sep)` for a single-character separator, on char lists. -/
def splitChar (sep : Char) : List Char → List (List Char)
| [] => [[]]
| c :: rest =>
  let r := splitChar sep rest
  if c == sep then [] :: r
  else (c :: r.headD []) :: r.tail

/-- Python `s.split(",")`. -/
def strSplitComma (s : String) : List String :=
  (splitChar ',' s.data).map (fun cs => ⟨cs⟩)

/-- Python `s.strip()`. -/
def strStrip (s : String) : String :=
  ⟨(s.data.dropWhile Char.isWhitespace).reverse.dropWhile Char.isWhitespace |>.reverse⟩

/-- Python truthiness of a string: nonempty. -/
def strTruthy (s : String) : Bool := !s.isEmpty

/-! ## Regression gate (machina_gvu_tracker.py, class RegressionGate)

A test-suite result or baseline record `{pass_count, fail_count, total, ts_ms,
error?}` as produced by `run_e2e` and stored in `regression_baseline.json`.
`run_e2e` itself shells out to the end-to-end suite; its result is passed in
as an oracle value wherever the Python calls it. -/

structure GateResult where
  pass_count : Nat
  fail_count : Nat
  total : Nat
  ts_ms : Int
  err : Option String
deriving DecidableEq, Repr

/-- Initial baseline returned by `_load_baseline` when no file exists:
`{"pass_count": 0, "fail_count": 0, "total": 0, "ts_ms": 0}`. -/
def initialBaseline : GateResult := ⟨0, 0, 0, 0, none⟩

/-- Embeds `RegressionGate.check`: true when the stored baseline has falsy
`total`, otherwise true iff `result.pass_count >= baseline.pass_count`. -/
def check (baseline result : GateResult) : Bool :=
  if baseline.total = 0 then true
  else decide (baseline.pass_count ≤ result.pass_count)

/-- Embeds `RegressionGate.accept`: replace the baseline by `result` only when
`result.pass_count >= baseline.pass_count`. -/
def accept (baseline result : GateResult) : GateResult :=
  if baseline.pass_count ≤ result.pass_count then result else baseline

/-- Embeds `RegressionGate.ensure_baseline`: when the current baseline has
`total = 0`, run the suite once (result `e2e` passed as oracle) and adopt it
if it has `total > 0` and no error marker. -/
def ensureBaseline (baseline e2e : GateResult) : GateResult :=
  if 0 < baseline.total then baseline
  else if 0 < e2e.total ∧ e2e.err = none then e2e
  else baseline

structure GateOutcome where
  accepted : Bool
  gated : Bool
deriving DecidableEq, Repr

/-- Embeds `RegressionGate.gate`: `ensure_baseline` (its internal `run_e2e`
result is the oracle `ensureE2e`), apply the change, rerun the suite
(oracle `after`); on an erroring run return accepted without gating; else
check and accept or reject.  Returns the outcome together with the updated
baseline. -/
def gateStep (baseline ensureE2e after : GateResult) : GateOutcome × GateResult :=
  let b1 := ensureBaseline baseline ensureE2e
  if after.err ≠ none then (⟨true, false⟩, b1)
  else if check b1 after then (⟨true, true⟩, accept b1 after)
  else (⟨false, true⟩, b1)

/-- Calls a process can make on the gate during one lifetime, with the
end-to-end suite results passed as oracle data. -/
inductive GateOp
| ensure (e2e : GateResult)
| accept (result : GateResult)
| gate (ensureE2e after : GateResult)

/-- One gate call acting on the stored baseline. -/
def applyGateOp (b : GateResult) : GateOp → GateResult
| .ensure r => ensureBaseline b r
| .accept r => accept b r
| .gate e a => (gateStep b e a).2

/-- A well-formed suite result reports no more passes than total tests. -/
def resultConsistent (r : GateResult) : Prop := r.pass_count ≤ r.total

/-- All oracle results embedded in a gate call are consistent. -/
def opConsistent : GateOp → Prop
| .ensure r => resultConsistent r
| .accept r => resultConsistent r
| .gate e a => resultConsistent e ∧ resultConsistent a

/-- State invariant along any run: a baseline with `total = 0` has zero passes. -/
def baselineZeroInv (b : GateResult) : Prop := b.total = 0 → b.pass_count = 0

lemma ensureBaseline_pass_mono (b r : GateResult) (hb : baselineZeroInv b)
    (hr : resultConsistent r) :
    b.pass_count ≤ (ensureBaseline b r).pass_count ∧
      baselineZeroInv (ensureBaseline b r) := by
  simp only [ensureBaseline]
  split
  · exact ⟨le_refl _, hb⟩
  · rename_i htot
    split
    · rename_i hcond
      have hb0 : b.pass_count = 0 := hb (by omega)
      constructor
      · omega
      · intro h0
        have := hr
        simp only [resultConsistent] at this
        omega
    · exact ⟨le_refl _, hb⟩

lemma accept_pass_mono (b r : GateResult) (hb : baselineZeroInv b)
    (hr : resultConsistent r) :
    b.pass_count ≤ (accept b r).pass_count ∧ baselineZeroInv (accept b r) := by
  simp only [accept]
  split
  · rename_i hle
    refine ⟨hle, ?_⟩
    intro h0
    have : r.pass_count ≤ r.total := hr
    omega
  · exact ⟨le_refl _, hb⟩

lemma applyGateOp_pass_mono (b : GateResult) (op : GateOp)
    (hb : baselineZeroInv b) (hop : opConsistent op) :
    b.pass_count ≤ (applyGateOp b op).pass_count ∧ baselineZeroInv (applyGateOp b op) := by
  cases op with
  | ensure r => exact ensureBaseline_pass_mono b r hb hop
  | accept r => exact accept_pass_mono b r hb hop
  | gate e a =>
    simp only [applyGateOp, gateStep]
    obtain ⟨he, ha⟩ := hop
    obtain ⟨h1, hinv1⟩ := ensureBaseline_pass_mono b e hb he
    split
    · exact ⟨h1, hinv1⟩
    · split
      · have hacc := accept_pass_mono (ensureBaseline b e) a hinv1 ha
        exact ⟨le_trans h1 hacc.1, hacc.2⟩
      · exact ⟨h1, hinv1⟩

lemma foldl_gate_pass_mono (ops : List GateOp) (b : GateResult)
    (hb : baselineZeroInv b) (hops : ∀ op ∈ ops, opConsistent op) :
    b.pass_count ≤ (ops.foldl applyGateOp b).pass_count ∧
      baselineZeroInv (ops.foldl applyGateOp b) := by
  induction ops generalizing b with
  | nil => exact ⟨le_refl _, hb⟩
  | cons op rest ih =>
    have hstep := applyGateOp_pass_mono b op hb (hops op (by simp))
    have hrest := ih (applyGateOp b op) hstep.2 (fun o ho => hops o (by simp [ho]))
    exact ⟨le_trans hstep.1 hrest.1, hrest.2⟩

/-- C4 counterexample input: an erroring run scoring below the baseline. -/
def c4Baseline : GateResult := ⟨5, 5, 10, 0, none⟩

/-- C4 counterexample input: a timed-out suite run with zero parsed passes. -/
def c4ErrResult : GateResult := ⟨0, 0, 0, 0, some "timeout"⟩

/-- C4: the claim "check(result) returns true iff result.pass_count ≥
baseline.pass_count OR the run erred" is false: on an erroring result with
fewer passes than the baseline, `check` returns false (the fail-open on
errors lives in `gate`, which returns before calling `check`). -/
theorem check_error_iff_counterexample :
    ¬ (check c4Baseline c4ErrResult = true ↔
        (c4Baseline.pass_count ≤ c4ErrResult.pass_count ∨ c4ErrResult.err ≠ none)) := by
  decide

/-- C4 (amended): `check` returns true iff the baseline is unset
(`total = 0`) or the result has at least as many passes as the baseline;
erroring runs fail open one level up, in `gate`, which returns
`accepted = true` without gating whenever the post-change run carries an
error marker. -/
theorem check_and_gate_fail_open (b r ensureE2e after : GateResult) :
    (check b r = true ↔ (b.total = 0 ∨ b.pass_count ≤ r.pass_count)) ∧
      (after.err ≠ none →
        (gateStep b ensureE2e after).1.accepted = true ∧
          (gateStep b ensureE2e after).1.gated = false) := by
  constructor
  · simp only [check]
    split
    · rename_i h
      simp [h]
    · rename_i h
      simp [h]
  · intro herr
    simp only [gateStep]
    rw [if_pos herr]
    exact ⟨rfl, rfl⟩

/-- C4 amended-claim witness at concrete inputs. -/
theorem check_and_gate_fail_open_witness :
    (check initialBaseline c4ErrResult = true ↔
        (initialBaseline.total = 0 ∨ initialBaseline.pass_count ≤ c4ErrResult.pass_count)) ∧
      (gateStep c4Baseline c4ErrResult c4ErrResult).1.accepted = true ∧
        (gateStep c4Baseline c4ErrResult c4ErrResult).1.gated = false := by
  refine ⟨(check_and_gate_fail_open initialBaseline c4ErrResult c4ErrResult c4ErrResult).1, ?_⟩
  exact (check_and_gate_fail_open c4Baseline c4ErrResult c4ErrResult c4ErrResult).2 (by decide)

/-- C5 counterexample input: a suite summary claiming three passes out of a
zero total ("3 PASS / 0 FAIL / 0 TOTAL" parses to this record). -/
def c5Inconsistent : GateResult := ⟨3, 0, 0, 0, none⟩

/-- C5 counterexample input: a later clean run with zero passes out of five. -/
def c5Later : GateResult := ⟨0, 5, 5, 0, none⟩

/-- C5: the claim that `baseline.pass_count` never decreases over every
sequence of ensure_baseline/accept/gate calls is false: `accept` has no
consistency guard, so accepting a parsed summary with `pass_count = 3,
total = 0` and then calling `ensure_baseline` (which still sees `total = 0`
and adopts a fresh suite run) drops the pass count from 3 to 0. -/
theorem baseline_monotone_counterexample :
    ([GateOp.accept c5Inconsistent, GateOp.ensure c5Later].foldl
        applyGateOp initialBaseline).pass_count
      < ([GateOp.accept c5Inconsistent].foldl applyGateOp initialBaseline).pass_count := by
  decide

/-- C5 (amended): starting from the zero baseline, along every sequence of
ensure_baseline/accept/gate calls in which each embedded suite result is
consistent (`pass_count ≤ total`), the stored `baseline.pass_count` never
decreases: every extension of a call prefix keeps at least the prefix's
pass count. -/
theorem baseline_pass_count_monotone (ops more : List GateOp)
    (hops : ∀ op ∈ ops ++ more, opConsistent op) :
    (ops.foldl applyGateOp initialBaseline).pass_count ≤
      ((ops ++ more).foldl applyGateOp initialBaseline).pass_count := by
  have hinv0 : baselineZeroInv initialBaseline := fun _ => rfl
  have hpre := foldl_gate_pass_mono ops initialBaseline hinv0
    (fun o ho => hops o (by simp [ho]))
  have hext := foldl_gate_pass_mono more (ops.foldl applyGateOp initialBaseline)
    hpre.2 (fun o ho => hops o (by simp [ho]))
  rw [List.foldl_append]
  exact hext.1

/-- C5 amended-claim witness: a concrete consistent call sequence. -/
theorem baseline_pass_count_monotone_witness :
    ([GateOp.accept ⟨4, 1, 5, 0, none⟩].foldl applyGateOp initialBaseline).pass_count ≤
      (([GateOp.accept ⟨4, 1, 5, 0, none⟩] ++
          [GateOp.gate ⟨4, 1, 5, 0, none⟩ ⟨5, 0, 5, 0, none⟩]).foldl
        applyGateOp initialBaseline).pass_count :=
  baseline_pass_count_monotone [GateOp.accept ⟨4, 1, 5, 0, none⟩]
    [GateOp.gate ⟨4, 1, 5, 0, none⟩ ⟨5, 0, 5, 0, none⟩]
    (by intro op hop; fin_cases hop <;> simp [opConsistent, resultConsistent])

/-! ## Permission engine (machina_permissions.py)

Permission levels `ALLOW / ASK / DENY`, the static `DEFAULT_PERMISSIONS`
map, the `_READONLY_AIDS` set, and `check_permission`.  The environment
override map and the manifest-inferred map are passed in as parameters
(their loaders read env/disk); the session-grant set is a parameter as
well. -/

inductive Perm
| allow
| ask
| deny
deriving DecidableEq, Repr

/-- Embeds the `DEFAULT_PERMISSIONS` dict literal, in source order. -/
def defaultPermissions : List (String × Perm) :=
  [("AID.FILE.READ.v1", .allow),
   ("AID.FILE.LIST.v1", .allow),
   ("AID.FILE.SEARCH.v1", .allow),
   ("AID.FILE.DIFF.v1", .allow),
   ("AID.MEMORY.QUERY.v1", .allow),
   ("AID.MEMORY.APPEND.v1", .allow),
   ("AID.UTIL.LIST.v1", .allow),
   ("AID.UTIL.SAVE.v1", .allow),
   ("AID.UTIL.RUN.v1", .allow),
   ("AID.UTIL.DELETE.v1", .allow),
   ("AID.UTIL.UPDATE.v1", .allow),
   ("AID.CODE.EXEC.v1", .ask),
   ("AID.NET.WEB_SEARCH.v1", .allow),
   ("AID.FILE.WRITE.v1", .allow),
   ("AID.FILE.EDIT.v1", .allow),
   ("AID.FILE.APPEND.v1", .allow),
   ("AID.PROJECT.CREATE.v1", .allow),
   ("AID.FILE.DELETE.v1", .ask),
   ("AID.SHELL.EXEC.v1", .ask),
   ("AID.NET.HTTP_GET.v1", .ask),
   ("AID.GENESIS.COMPILE_SHARED.v1", .ask),
   ("AID.GENESIS.LOAD_PLUGIN.v1", .ask),
   ("AID.PROJECT.BUILD.v1", .ask),
   ("AID.SYSTEM.PIP_INSTALL.v1", .ask),
   ("AID.SYSTEM.PIP_UNINSTALL.v1", .ask),
   ("AID.SYSTEM.PIP_LIST.v1", .allow),
   ("AID.GENESIS.WRITE_FILE.v1", .allow)]

/-- Embeds `_READONLY_AIDS` — allowed even in locked mode. -/
def readonlyAids : List String :=
  ["AID.FILE.READ.v1", "AID.FILE.LIST.v1", "AID.FILE.SEARCH.v1",
   "AID.FILE.DIFF.v1", "AID.MEMORY.QUERY.v1", "AID.UTIL.LIST.v1",
   "AID.SYSTEM.PIP_LIST.v1"]

/-- Embeds `check_permission(aid)`.  `mode` is `get_mode()`; `grants` is the
`_session_grants` set; `overrides` is `_load_overrides()` (already filtered
to valid levels); `manifestMap` is `_load_manifest_permission_map()`.
Mode overrides come first; any mode other than open/locked/supervised
falls through to the standard resolution chain:
session grants → overrides → defaults → manifest map → ASK. -/
def checkPermission (mode : String) (grants : List String)
    (overrides manifestMap : List (String × Perm)) (aid : String) : Perm :=
  if mode = "open" then .allow
  else if mode = "locked" then
    (if readonlyAids.contains aid then .allow else .deny)
  else if mode = "supervised" then
    (if readonlyAids.contains aid then .allow else .ask)
  else if grants.contains aid then .allow
  else match overrides.lookup aid with
  | some p => p
  | none =>
    match defaultPermissions.lookup aid with
    | some p => p
    | none =>
      match manifestMap.lookup aid with
      | some p => p
      | none => .ask

/-- Embeds `grant_session(aid)`: add the AID to the session-grant set. -/
def grantSession (grants : List String) (aid : String) : List String :=
  if grants.contains aid then grants else aid :: grants

/-- C10: session grants affect resolution only in standard mode — in open,
locked, and supervised modes `check_permission` returns the same level for
every content of the session-grant set as for the empty set. -/
theorem session_grants_only_standard (mode : String) (grants : List String)
    (overrides manifestMap : List (String × Perm)) (aid : String)
    (hmode : mode = "open" ∨ mode = "locked" ∨ mode = "supervised") :
    checkPermission mode grants overrides manifestMap aid =
      checkPermission mode [] overrides manifestMap aid := by
  rcases hmode with h | h | h <;> subst h <;> simp [checkPermission]

/-- C10 witness: granting the shell AID in locked mode leaves it denied. -/
theorem session_grants_only_standard_witness :
    checkPermission "locked" (grantSession [] "AID.SHELL.EXEC.v1") [] []
        "AID.SHELL.EXEC.v1" =
      checkPermission "locked" [] [] [] "AID.SHELL.EXEC.v1" ∧
      checkPermission "locked" [] [] [] "AID.SHELL.EXEC.v1" = .deny :=
  ⟨session_grants_only_standard "locked" (grantSession [] "AID.SHELL.EXEC.v1")
      [] [] "AID.SHELL.EXEC.v1" (Or.inr (Or.inl rfl)),
    by decide⟩

/-! ## Dispatcher permission gate (machina_dispatch_exec.py, run_machina_tool)

The gate that runs before any handler: deny fails immediately; an ASK-level
AID is blocked only when the caller has not approved AND the
`MACHINA_AUTONOMIC_APPROVE_ALL_ASK` toggle is off AND the AID is not in the
autonomic auto-approve list.  Environment values are `Option String`
parameters (`none` = variable unset). -/

inductive DispatchOutcome
| denied
| approvalRequired
| executed
deriving DecidableEq, Repr

/-- Embeds `_autonomic_approve_all_ask()`:
`os.getenv("MACHINA_AUTONOMIC_APPROVE_ALL_ASK", "1").lower() in ("1", "true", "yes", "on")`.
Note the default is "1": the toggle is ON when the variable is unset. -/
def autonomicApproveAllAsk (env : Option String) : Bool :=
  ["1", "true", "yes", "on"].contains (strLower (env.getD "1"))

/-- Embeds `SAFE_ASK_AIDS_DEFAULT` from machina_autonomic/_autoapprove.py. -/
def safeAskAidsDefault : List String :=
  ["AID.NET.HTTP_GET.v1", "AID.ERROR_SCAN.v1", "AID.PROC.SELF_METRICS.v1",
   "AID.GPU_SMOKE.v1", "AID.GPU.METRICS.v1"]

/-- Embeds `autonomic_auto_approve_enabled()` (default "1" = enabled). -/
def autonomicAutoApproveEnabled (env : Option String) : Bool :=
  ["1", "true", "yes", "on"].contains (strLower (env.getD "1"))

/-- Embeds `autonomic_auto_approve_aids()`: the default safe set united with
the comma-separated `MACHINA_AUTONOMIC_AUTO_APPROVE_AIDS` extras. -/
def autonomicAutoApproveAids (extraEnv : Option String) : List String :=
  safeAskAidsDefault ++
    ((strSplitComma (extraEnv.getD "")).map strStrip).filter (· ≠ "")

/-- Embeds `is_autonomic_auto_approved_aid(aid)`. -/
def isAutonomicAutoApprovedAid (enabledEnv extraEnv : Option String)
    (aid : String) : Bool :=
  autonomicAutoApproveEnabled enabledEnv &&
    (autonomicAutoApproveAids extraEnv).contains aid

/-- Embeds the permission gate at the top of `run_machina_tool`: the checks
between `check_permission` and the first handler branch. -/
def runToolGate (perm : Perm) (callerApproved approveAllAsk autoApprovedAid : Bool) :
    DispatchOutcome :=
  if perm = .deny then .denied
  else if perm = .ask && !callerApproved && !approveAllAsk && !autoApprovedAid then
    .approvalRequired
  else .executed

/-- C1: the claim that an ask-level dispatch without caller approval (and
without a session grant or approval round-trip) always fails as
`approval_required` is false: with the environment unset,
`MACHINA_AUTONOMIC_APPROVE_ALL_ASK` defaults to on, and
`run_machina_tool("AID.SHELL.EXEC.v1", …)` with `_caller_approved = False`
and no session grant resolves to ASK yet proceeds to execute the handler. -/
theorem ask_gate_counterexample :
    checkPermission "standard" [] [] [] "AID.SHELL.EXEC.v1" = .ask ∧
      runToolGate (checkPermission "standard" [] [] [] "AID.SHELL.EXEC.v1")
          false (autonomicApproveAllAsk none)
          (isAutonomicAutoApprovedAid none none "AID.SHELL.EXEC.v1") =
        .executed := by
  decide

/-- C1 (amended): the dispatcher blocks an ask-level action without caller
approval only when the `MACHINA_AUTONOMIC_APPROVE_ALL_ASK` toggle is off and
the AID is not autonomic-auto-approved; under those two conditions an
ask-level dispatch without caller approval fails as `approval_required`
(the handler never runs), and deny-level dispatch always fails. -/
theorem ask_gate_amended (perm : Perm) (callerApproved approveAllAsk autoApproved : Bool)
    (hask : perm = .ask) (hc : callerApproved = false) (ha : approveAllAsk = false)
    (hauto : autoApproved = false) :
    runToolGate perm callerApproved approveAllAsk autoApproved = .approvalRequired ∧
      ∀ p c aa au, p = Perm.deny → runToolGate p c aa au = .denied := by
  subst hask hc ha hauto
  refine ⟨rfl, ?_⟩
  intro p c aa au hp
  subst hp
  rfl

/-- C1 amended-claim witness: shell AID in standard mode with the autonomic
toggles explicitly off. -/
theorem ask_gate_amended_witness :
    runToolGate (checkPermission "standard" [] [] [] "AID.SHELL.EXEC.v1") false
        (autonomicApproveAllAsk (some "0"))
        (isAutonomicAutoApprovedAid (some "0") none "AID.SHELL.EXEC.v1") =
      .approvalRequired :=
  (ask_gate_amended (checkPermission "standard" [] [] [] "AID.SHELL.EXEC.v1")
    false (autonomicApproveAllAsk (some "0"))
    (isAutonomicAutoApprovedAid (some "0") none "AID.SHELL.EXEC.v1")
    (by decide) rfl (by decide) (by decide)).1

/-! ## File-write sandbox (machina_tools_fileops.py, machina_dispatch_exec.py)

`_sandbox_write_path` (used by file_edit / file_append / file_delete), the
inline sandbox of the `AID.FILE.WRITE.v1` handler, and `project_create`.
`os.path.realpath` is the operating system's symlink resolution and is
passed in as a function parameter `rp`; `os.sep` is "/". -/

/-- Python `s.startswith(pre)`. -/
def strStartsWith (s pre : String) : Bool := listPrefixOf pre.data s.data

/-- Python `s.endswith(suf)`. -/
def strEndsWith (s suf : String) : Bool := listPrefixOf suf.data.reverse s.data.reverse

/-- Python `os.path.isabs` on POSIX. -/
def isAbs (p : String) : Bool := strStartsWith p "/"

/-- Python `os.path.join(a, b)` on POSIX. -/
def pjoin (a b : String) : String :=
  if isAbs b then b
  else if a = "" then b
  else if strEndsWith a "/" then a ++ b
  else a ++ "/" ++ b

/-- Python `os.path.basename` on POSIX: the segment after the last slash. -/
def baseName (p : String) : String := ⟨(splitChar '/' p.data).getLastD []⟩

/-- Embeds `_sandbox_write_path(path)`: prefix relative paths with `work/`,
resolve against `MACHINA_ROOT` (`root`), apply realpath, and require the
result to sit under `realpath(root/work)`; `none` is the raised
`PermissionError`. -/
def sandboxWritePath (rp : String → String) (root path : String) : Option String :=
  let candidate :=
    if !isAbs path then
      pjoin root
        (if !strStartsWith path "work/" && !strStartsWith path "work\\" then
          pjoin "work" path
        else path)
    else path
  let real := rp candidate
  let safe := rp (pjoin root "work")
  if strStartsWith real (safe ++ "/") || real == safe then some real else none

/-- Embeds the path logic of the `AID.FILE.WRITE.v1` handler in
`run_machina_tool`: absolute inputs are reduced to their basename, relative
ones prefixed with `work/`, then realpath and the bounds check against
`realpath(root/work)` (the handler's content-size limit is independent of
the path and omitted). -/
def fileWritePath (rp : String → String) (root path : String) : Option String :=
  let safe := rp (pjoin root "work")
  let p1 := if isAbs path then baseName path else path
  let p2 :=
    if !strStartsWith p1 "work/" && !strStartsWith p1 "work\\" then pjoin "work" p1
    else p1
  let full := rp (pjoin root p2)
  if strStartsWith full (safe ++ "/") || full == safe then some full else none

/-- Embeds the `^[a-zA-Z_][a-zA-Z0-9_]{0,63}$` project-name check. -/
def validProjectName (s : String) : Bool :=
  match s.data with
  | [] => false
  | c :: rest =>
    (c.isAlpha || c == '_') && rest.length ≤ 63 &&
      rest.all (fun d => d.isAlphanum || d == '_')

/-- Result of `project_create`: the resolved project base directory, the
resolved paths of the written member files, and the resolved path of the
`__init__.py` that the python branch writes without a per-file realpath
check (when it does not already exist). -/
structure ProjectCreated where
  baseReal : String
  written : List String
  initWritten : Option String
deriving DecidableEq, Repr

/-- Loop body of `project_create` for one `{path, content}` member: skip
empty or `..`-containing relative paths, realpath-check the joined path
against the resolved base, and collect the resolved written path. -/
def projectFileStep (rp : String → String) (base baseReal : String)
    (acc : List String) (f : String × String) : List String :=
  if f.1 = "" || strContains f.1 ".." then acc
  else
    let fpathReal := rp (pjoin base f.1)
    if !strStartsWith fpathReal (baseReal ++ "/") && fpathReal ≠ baseReal then acc
    else acc ++ [fpathReal]

/-- The member-file loop of `project_create`. -/
def projectFileWrites (rp : String → String) (base baseReal : String)
    (files : List (String × String)) : List String :=
  files.foldl (projectFileStep rp base baseReal) []

/-- Base directory chosen by `project_create` per language. -/
def projectBaseDir (root name lang : String) : String :=
  if lang = "cpp" then
    pjoin (pjoin (pjoin (pjoin root "toolpacks") "runtime_genesis") "src") name
  else pjoin (pjoin (pjoin root "work") "projects") name

/-- Embeds `project_create(name, lang, files)`: cpp projects go under
`toolpacks/runtime_genesis/src/<name>`, python projects under
`work/projects/<name>`; the base is bounds-checked (after realpath) against
the project ROOT, the member files against the base.  `initExists` models
`os.path.exists(init_path)`.  `none` is any of the error returns. -/
def projectCreate (rp : String → String) (root name lang : String)
    (files : List (String × String)) (initExists : Bool) : Option ProjectCreated :=
  if !validProjectName name then none
  else if lang ≠ "cpp" && lang ≠ "python" then none
  else
    let base := projectBaseDir root name lang
    let realRoot := rp root
    let baseReal := rp base
    if !strStartsWith baseReal (realRoot ++ "/") then none
    else
      let init :=
        if lang = "python" && !initExists then some (rp (pjoin base "__init__.py"))
        else none
      some ⟨baseReal, projectFileWrites rp base baseReal files, init⟩

lemma ifSome_inv {α : Type} {c : Bool} {x out : α}
    (h : (if c = true then some x else none) = some out) : c = true ∧ x = out := by
  cases c
  · simp at h
  · refine ⟨rfl, ?_⟩
    simpa using h

lemma listPrefixOf_iff (a b : List Char) : listPrefixOf a b = true ↔ a <+: b := by
  induction a generalizing b with
  | nil => simp [listPrefixOf]
  | cons x xs ih =>
    cases b with
    | nil => simp [listPrefixOf]
    | cons y ys =>
      simp only [listPrefixOf, Bool.and_eq_true, beq_iff_eq, List.cons_prefix_cons, ih]

lemma strStartsWith_iff (s pre : String) :
    strStartsWith s pre = true ↔ pre.data <+: s.data :=
  listPrefixOf_iff pre.data s.data

lemma strStartsWith_append_trans (w b r : String)
    (h1 : strStartsWith w (b ++ "/") = true) (h2 : strStartsWith b (r ++ "/") = true) :
    strStartsWith w (r ++ "/") = true := by
  rw [strStartsWith_iff] at h1 h2 ⊢
  rw [String.data_append] at h1 h2 ⊢
  calc r.data ++ "/".data <+: b.data := h2
    _ <+: b.data ++ "/".data := (b.data).prefix_append "/".data
    _ <+: w.data := h1

lemma projectFileStep_bounds (rp : String → String) (base baseReal : String)
    (acc : List String) (f : String × String)
    (hacc : ∀ v ∈ acc, strStartsWith v (baseReal ++ "/") = true ∨ v = baseReal) :
    ∀ v ∈ projectFileStep rp base baseReal acc f,
      strStartsWith v (baseReal ++ "/") = true ∨ v = baseReal := by
  simp only [projectFileStep]
  split
  · exact hacc
  · split
    · exact hacc
    · rename_i hok
      intro u hu
      rw [List.mem_append] at hu
      rcases hu with hu | hu
      · exact hacc u hu
      · rw [List.mem_singleton] at hu
        subst hu
        rw [Bool.not_eq_true, Bool.and_eq_false_iff] at hok
        rcases hok with hok | hok
        · rw [Bool.not_eq_false'] at hok
          exact Or.inl hok
        · rw [decide_eq_false_iff_not, not_not] at hok
          exact Or.inr hok

lemma projectFileWrites_bounds (rp : String → String) (base baseReal : String)
    (files : List (String × String)) :
    ∀ w ∈ projectFileWrites rp base baseReal files,
      strStartsWith w (baseReal ++ "/") = true ∨ w = baseReal := by
  have aux : ∀ (fs : List (String × String)) (acc : List String),
      (∀ v ∈ acc, strStartsWith v (baseReal ++ "/") = true ∨ v = baseReal) →
      ∀ v ∈ fs.foldl (projectFileStep rp base baseReal) acc,
        strStartsWith v (baseReal ++ "/") = true ∨ v = baseReal := by
    intro fs
    induction fs with
    | nil => intro acc hacc v hv; exact hacc v hv
    | cons f rest ih =>
      intro acc hacc v hv
      simp only [List.foldl_cons] at hv
      exact ih _ (projectFileStep_bounds rp base baseReal acc f hacc) v hv
  exact aux files [] (by intro v hv; cases hv)

/-- C2 counterexample input: a one-file cpp project. -/
def c2Files : List (String × String) := [("a.cpp", "int x;")]

/-- C2: the claim that every file-write operation (including project-create)
lands inside the `work/` subtree after symlink resolution is false:
`project_create("proj", "cpp", …)` with the identity realpath (no symlinks
at all) writes `<root>/toolpacks/runtime_genesis/src/proj/a.cpp`, whose
resolved path does not lie under `<root>/work`; the cpp branch is
bounds-checked against the project root, not against `work/`. -/
theorem project_create_outside_work_counterexample :
    projectCreate id "/m" "proj" "cpp" c2Files false =
      some ⟨"/m/toolpacks/runtime_genesis/src/proj",
        ["/m/toolpacks/runtime_genesis/src/proj/a.cpp"], none⟩ ∧
      strStartsWith "/m/toolpacks/runtime_genesis/src/proj/a.cpp"
          (id (pjoin "/m" "work") ++ "/") = false ∧
      "/m/toolpacks/runtime_genesis/src/proj/a.cpp" ≠ id (pjoin "/m" "work") := by
  refine ⟨?_, by decide, by decide⟩
  decide

/-- C2 (amended): `_sandbox_write_path` (file edit/append/delete) and the
`AID.FILE.WRITE.v1` handler apply realpath to the candidate before the
bounds check and only ever return a resolved path that lies under
`realpath(root/work)` — any candidate resolving outside is rejected;
`project_create`, by contrast, realpath-bounds-checks its writes against
the project root (cpp projects live under `toolpacks/runtime_genesis/src`,
outside `work/`), so every member file it writes resolves under the root,
not necessarily under `work/`. -/
theorem write_sandbox_amended (rp : String → String) (root path name lang : String)
    (files : List (String × String)) (initExists : Bool) :
    (∀ out, sandboxWritePath rp root path = some out →
      (strStartsWith out (rp (pjoin root "work") ++ "/") = true ∨
          out = rp (pjoin root "work")) ∧ ∃ cand, out = rp cand) ∧
    (∀ out, fileWritePath rp root path = some out →
      (strStartsWith out (rp (pjoin root "work") ++ "/") = true ∨
          out = rp (pjoin root "work")) ∧ ∃ cand, out = rp cand) ∧
    (∀ res, projectCreate rp root name lang files initExists = some res →
      ∀ w ∈ res.written, strStartsWith w (rp root ++ "/") = true) := by
  refine ⟨?_, ?_, ?_⟩
  · intro out hout
    simp only [sandboxWritePath] at hout
    obtain ⟨hcond, hx⟩ := ifSome_inv hout
    rw [Bool.or_eq_true, beq_iff_eq] at hcond
    subst hx
    constructor
    · rcases hcond with h | h
      · exact Or.inl h
      · exact Or.inr h
    · exact ⟨_, rfl⟩
  · intro out hout
    simp only [fileWritePath] at hout
    obtain ⟨hcond, hx⟩ := ifSome_inv hout
    rw [Bool.or_eq_true, beq_iff_eq] at hcond
    subst hx
    constructor
    · rcases hcond with h | h
      · exact Or.inl h
      · exact Or.inr h
    · exact ⟨_, rfl⟩
  · intro res hres w hw
    simp only [projectCreate] at hres
    split at hres
    · exact absurd hres (by simp)
    · split at hres
      · exact absurd hres (by simp)
      · split at hres
        · exact absurd hres (by simp)
        · rename_i hbase
          rw [Bool.not_eq_true', Bool.not_eq_false] at hbase
          cases hres
          simp only at hw
          rcases projectFileWrites_bounds rp _ _ files w hw with h | h
          · exact strStartsWith_append_trans _ _ _ h hbase
          · rw [h]
            exact hbase

/-- C2 amended-claim witness at concrete inputs. -/
theorem write_sandbox_amended_witness :
    ((strStartsWith "/m/work/notes.txt" (id (pjoin "/m" "work") ++ "/") = true ∨
        "/m/work/notes.txt" = id (pjoin "/m" "work")) ∧
      ∃ cand, "/m/work/notes.txt" = id cand) ∧
      strStartsWith "/m/toolpacks/runtime_genesis/src/proj/a.cpp" (id "/m" ++ "/") = true := by
  constructor
  · exact (write_sandbox_amended id "/m" "notes.txt" "proj" "cpp" c2Files false).1
      "/m/work/notes.txt" (by decide)
  · exact (write_sandbox_amended id "/m" "notes.txt" "proj" "cpp" c2Files false).2.2
      ⟨"/m/toolpacks/runtime_genesis/src/proj",
        ["/m/toolpacks/runtime_genesis/src/proj/a.cpp"], none⟩ (by decide)
      "/m/toolpacks/runtime_genesis/src/proj/a.cpp" (by decide)

/-! ## Skill recording (machina_learning.py skill_record,
machina_dispatch.py _should_record_skill)

`skill_record` appends a skill record to the skills stream after its own
checks; the code-hash dedup and line-count gate live in the dispatcher's
auto-record quality gate `_should_record_skill`.  SHA-256 is modeled as a
function parameter `hash`. -/

/-- A record of the skills stream as written by `skill_record` (the
`event`/`stream` constants are fixed by the code and omitted). -/
structure SkillRec where
  ts_ms : Int
  name : String
  tags : List String
  request : String
  lang : String
  code : String
  resultPreview : String
deriving DecidableEq, Repr

/-- Python `\w` (ASCII approximation; the repository's import names are
ASCII). -/
def isWordChar (c : Char) : Bool := c.isAlphanum || c == '_'

/-- Try to match `(?:import|from)\s+(\w+)` at the head of the list,
returning the captured word and the remainder after the match. -/
def matchImportAt (l : List Char) : Option (List Char × List Char) :=
  let tryKw : List Char → Option (List Char × List Char) := fun kw =>
    if listPrefixOf kw l then
      let after := l.drop kw.length
      let ws := after.takeWhile Char.isWhitespace
      let rest1 := after.dropWhile Char.isWhitespace
      if ws.isEmpty then none
      else
        let word := rest1.takeWhile isWordChar
        let rest2 := rest1.dropWhile isWordChar
        if word.isEmpty then none else some (word, rest2)
    else none
  match tryKw "import".data with
  | some r => some r
  | none => tryKw "from".data

/-- Scan for all non-overlapping matches of `(?:import|from)\s+(\w+)`
(as `re.findall` does); `fuel` is the input length, consumed per step. -/
def findImportsFuel : Nat → List Char → List (List Char)
| 0, _ => []
| _, [] => []
| fuel + 1, c :: rest =>
  match matchImportAt (c :: rest) with
  | some (word, remaining) => word :: findImportsFuel fuel remaining
  | none => findImportsFuel fuel rest

/-- Python `re.findall(r'(?:import|from)\s+(\w+)', code)`. -/
def findImports (code : String) : List String :=
  (findImportsFuel code.data.length code.data).map (fun cs => ⟨cs⟩)

/-- Keyword tags probed by `skill_record` against `code.lower()`. -/
def skillKeywords : List String :=
  ["sort", "search", "math", "file", "web", "parse", "calc", "print", "loop", "api"]

/-- Insertion into a lexicographically sorted list of strings. -/
def insertSorted (s : String) : List String → List String
| [] => [s]
| x :: xs => if s ≤ x then s :: x :: xs else x :: insertSorted s xs

/-- Python `sorted(set(xs))` for strings: dedup then sort. -/
def sortedDedup (xs : List String) : List String :=
  (xs.foldl (fun acc x => if acc.contains x then acc else acc ++ [x]) []).foldr
    insertSorted []

/-- Tag set computed by `skill_record`: the language, every imported module
name, and every probe keyword occurring in the lowercased code. -/
def skillTags (lang code : String) : List String :=
  sortedDedup ([lang] ++ findImports code ++
    skillKeywords.filter (fun kw => strContains (strLower code) kw))

/-- Embeds `skill_record(user_request, lang, code, result)` acting on the
skills stream: refuse empty code/result and results whose first 50
lowercased characters contain "error" or "traceback"; otherwise append —
with no dedup against existing records and no minimum-line check. -/
def skillRecord (now : Int) (stream : List SkillRec)
    (userRequest lang code result : String) : List SkillRec :=
  if code = "" || result = "" then stream
  else if strContains (strTake (strLower result) 50) "error" ||
      strContains (strTake (strLower result) 50) "traceback" then stream
  else
    stream ++ [⟨now, strStrip (strTake userRequest 60), skillTags lang code,
      strTake userRequest 500, lang, strTake code 3000, strTake result 1000⟩]

/-- Embeds `_ERROR_MARKERS` from machina_dispatch.py. -/
def errorMarkers : List String :=
  ["error", "traceback", "failed", "exception", "fault", "errno"]

/-- Embeds `_should_record_skill(code, result)`: the dispatcher's quality
gate for auto skill recording — nonempty code and result, at least two
newlines (three lines), no error marker in the first 500 lowercased result
characters, and a code hash not already in the skill-hash cache. -/
def shouldRecordSkill (hash : String → String) (cache : List String)
    (code result : String) : Bool :=
  if code = "" || result = "" then false
  else if code.data.count '\n' < 2 then false
  else if errorMarkers.any (fun m => strContains (strTake (strLower result) 500) m) then
    false
  else !cache.contains (hash code)

/-- C3: the claim that skill recording silently drops records whose
code_hash already occurs in the skills stream (and refuses code of fewer
than three lines) is false for `skill_record` itself: recording the same
three-line code twice appends two records with identical code (hence
identical SHA-256 `code_hash`), and a one-line code is accepted. -/
theorem skill_record_dedup_counterexample :
    ((skillRecord 5 (skillRecord 5 [] "req" "python" "a = 1\nb = 2\nprint(a+b)" "3")
        "req" "python" "a = 1\nb = 2\nprint(a+b)" "3").map SkillRec.code =
      ["a = 1\nb = 2\nprint(a+b)", "a = 1\nb = 2\nprint(a+b)"]) ∧
      (skillRecord 5 [] "req" "python" "print(1)" "1").length = 1 := by
  constructor
  · rfl
  · rfl

/-- C3 (amended): the code-hash dedup and the minimum-line gate guard only
the dispatcher's auto-record path: `_should_record_skill` returns true only
when the code hash is not cached, the code has at least three lines, and no
error marker occurs in the first 500 lowercased result characters —
while `skill_record` itself refuses only empty inputs and results whose
first 50 lowercased characters contain "error"/"traceback", appending
without dedup otherwise (duplicates are later removed by hygiene). -/
theorem skill_gate_amended (hash : String → String) (cache : List String)
    (code result : String) (h : shouldRecordSkill hash cache code result = true) :
    cache.contains (hash code) = false ∧ 2 ≤ code.data.count '\n' ∧
      (∀ m ∈ errorMarkers, strContains (strTake (strLower result) 500) m = false) ∧
      ∀ (now : Int) (stream : List SkillRec) (req lg cd res : String),
        strContains (strTake (strLower res) 50) "error" = true →
          skillRecord now stream req lg cd res = stream := by
  simp only [shouldRecordSkill] at h
  split at h
  · exact absurd h (by simp)
  · split at h
    · exact absurd h (by simp)
    · split at h
      · exact absurd h (by simp)
      · rename_i h1 h2 h3
        refine ⟨by simpa using h, by omega, ?_, ?_⟩
        · intro m hm
          rw [Bool.not_eq_true] at h3
          by_contra hmc
          rw [Bool.not_eq_false] at hmc
          exact absurd (List.any_eq_true.mpr ⟨m, hm, hmc⟩) (by rw [h3]; simp)
        · intro now stream req lg cd res hres
          simp only [skillRecord]
          split
          · rfl
          · rw [if_pos]
            rw [Bool.or_eq_true]
            exact Or.inl hres

/-- C3 amended-claim witness: a fresh three-line snippet passes the gate;
an erroring result is refused by `skill_record`. -/
theorem skill_gate_amended_witness :
    ([].contains (id "a = 1\nb = 2\nprint(a+b)") = false ∧
        2 ≤ "a = 1\nb = 2\nprint(a+b)".data.count '\n' ∧
        (∀ m ∈ errorMarkers, strContains (strTake (strLower "3") 500) m = false) ∧
        ∀ (now : Int) (stream : List SkillRec) (req lg cd res : String),
          strContains (strTake (strLower res) 50) "error" = true →
            skillRecord now stream req lg cd res = stream) :=
  skill_gate_amended id [] "a = 1\nb = 2\nprint(a+b)" "3" (by decide)

/-! ## Trust score and hygiene eviction
(machina_autonomic/_engine_levels.py trust_score,
machina_autonomic/_engine_ops.py do_hygiene)

`trust_score` computes `round(recency * quality, 3)` in Python floats; it is
modeled over the reals with half-even rounding at three decimals (Python's
`round`).  The hygiene passes compare the engine's trust function against
0.1; they are modeled with the trust function as a parameter, mirroring the
`engine._trust_score` indirection in the source. -/

open Classical in
/-- Python `round` to an integer: nearest, ties to even. -/
noncomputable def roundHalfEven (x : ℝ) : ℤ :=
  if Int.fract x = 1/2 then 2 * round (x / 2) else round x

/-- Python `round(x, 3)` on the real value. -/
noncomputable def pyRound3 (x : ℝ) : ℝ := (roundHalfEven (1000 * x) : ℝ) / 1000

/-- Quality factor of `trust_score`: 1.0 on success, 0.3 on failure, 0.5
when the record has no `success` field. -/
noncomputable def qualityFactor : Option Bool → ℝ
| some true => 1
| some false => 3/10
| none => 1/2

/-- Recency factor named by the spec: `2 ** (-age_days / 7)`. -/
noncomputable def recencyFactor (ageDays : ℝ) : ℝ := (2 : ℝ) ^ (-(ageDays / 7))

/-- Embeds `trust_score(entry)`: age in days from `ts_ms` to now, halving
every 7 days, times the quality factor, rounded to three decimals. -/
noncomputable def trust_score (now_ms ts_ms : Int) (success : Option Bool) : ℝ :=
  let ageDays : ℝ := ((now_ms - ts_ms : ℤ) : ℝ) / 86400000
  let recency : ℝ := (2 : ℝ) ^ (-(ageDays / 7))
  pyRound3 (recency * qualityFactor success)

/-- A skills-stream record as inspected by the hygiene pass: optional
stored `code_hash` (falling back to SHA-256 of the code, parameter `sha`),
the code, and the optional `used_count` reuse counter. -/
structure HygieneSkill where
  codeHash : Option String
  code : String
  usedCount : Option Int
deriving DecidableEq, Repr

/-- Python truthiness of `e.get("used_count")`. -/
def usedCountTruthy (e : HygieneSkill) : Bool :=
  match e.usedCount with
  | some n => n != 0
  | none => false

/-- One step of the skills dedup/trust-prune loop in `do_hygiene`:
skip records whose hash was already seen; then skip records with trust
below 0.1 and no observed reuse; keep the rest. -/
def hygieneSkillStep (trust : HygieneSkill → ℚ) (sha : String → String)
    (st : List String × List HygieneSkill) (e : HygieneSkill) :
    List String × List HygieneSkill :=
  let h := e.codeHash.getD (sha e.code)
  if st.1.contains h then st
  else if trust e < 1/10 && !usedCountTruthy e then (st.1 ++ [h], st.2)
  else (st.1 ++ [h], st.2 ++ [e])

/-- Python `xs[-n:]`. -/
def takeLast {α : Type} (l : List α) (n : Nat) : List α := l.drop (l.length - n)

/-- Embeds the skills pass of `do_hygiene`: dedup by code hash, drop
low-trust unused records, and keep only the newest 100 of the result. -/
def hygieneSkillsKept (trust : HygieneSkill → ℚ) (sha : String → String)
    (entries : List HygieneSkill) : List HygieneSkill :=
  takeLast (entries.foldl (hygieneSkillStep trust sha) ([], [])).2 100

/-- Embeds the experiences pass of `do_hygiene`:
`entries = [e for e in entries if engine._trust_score(e) >= 0.1]` — no
reuse condition. -/
def hygieneExperiencesKept {α : Type} (trust : α → ℚ) (entries : List α) : List α :=
  entries.filter (fun e => decide ((1:ℚ)/10 ≤ trust e))

lemma hygieneSkillStep_bounds (trust : HygieneSkill → ℚ) (sha : String → String)
    (st : List String × List HygieneSkill) (e : HygieneSkill)
    (hacc : ∀ v ∈ st.2, (1:ℚ)/10 ≤ trust v ∨ usedCountTruthy v = true) :
    ∀ v ∈ (hygieneSkillStep trust sha st e).2,
      (1:ℚ)/10 ≤ trust v ∨ usedCountTruthy v = true := by
  simp only [hygieneSkillStep]
  split
  · exact hacc
  · split
    · exact hacc
    · rename_i hok
      intro u hu
      rw [List.mem_append] at hu
      rcases hu with hu | hu
      · exact hacc u hu
      · rw [List.mem_singleton] at hu
        subst hu
        rw [Bool.not_eq_true, Bool.and_eq_false_iff] at hok
        rcases hok with hok | hok
        · exact Or.inl (le_of_not_lt (of_decide_eq_false hok))
        · rw [Bool.not_eq_false'] at hok
          exact Or.inr hok

lemma hygieneSkillsFold_bounds (trust : HygieneSkill → ℚ) (sha : String → String)
    (entries : List HygieneSkill) :
    ∀ (st : List String × List HygieneSkill),
      (∀ v ∈ st.2, (1:ℚ)/10 ≤ trust v ∨ usedCountTruthy v = true) →
      ∀ v ∈ (entries.foldl (hygieneSkillStep trust sha) st).2,
        (1:ℚ)/10 ≤ trust v ∨ usedCountTruthy v = true := by
  induction entries with
  | nil => intro st hst v hv; exact hst v hv
  | cons e rest ih =>
    intro st hst v hv
    rw [List.foldl_cons] at hv
    exact ih _ (hygieneSkillStep_bounds trust sha st e hst) v hv

/-- C7 counterexample entry: a record 21 days old with no `success` field. -/
def c7Now : Int := 21 * 86400000

/-- C7: the claim that the trust score equals `recency_factor ·
quality_factor` exactly is false: the code rounds the product to three
decimals, so a 21-day-old record with unknown success has code trust
`round(2^(-3) · 0.5, 3) = 0.062`, not `0.0625`. -/
theorem trust_score_rounding_counterexample :
    trust_score c7Now 0 none ≠ recencyFactor 21 * qualityFactor none := by
  have hage : ((c7Now - 0 : ℤ) : ℝ) / 86400000 = 21 := by
    norm_num [c7Now]
  have hrec : recencyFactor 21 = 1/8 := by
    rw [recencyFactor]
    rw [show -((21:ℝ)/7) = -(3:ℕ) by norm_num]
    rw [Real.rpow_neg (by norm_num : (0:ℝ) ≤ 2), Real.rpow_natCast]
    norm_num
  have hq : qualityFactor none = 1/2 := rfl
  have hprod : recencyFactor 21 * qualityFactor none = 1/16 := by
    rw [hrec, hq]; norm_num
  have hfloor : ⌊(62.5 : ℝ)⌋ = 62 := by
    rw [Int.floor_eq_iff]
    norm_num
  have hfract : Int.fract (1000 * (1/16 : ℝ)) = 1/2 := by
    rw [show (1000 : ℝ) * (1/16) = 62.5 by norm_num, Int.fract, hfloor]
    norm_num
  have hround : round ((62.5 : ℝ) / 2) = 31 := by
    rw [round_eq, show (62.5 : ℝ)/2 + 1/2 = 31.75 by norm_num]
    rw [Int.floor_eq_iff]
    norm_num
  have hhe : roundHalfEven (1000 * (1/16 : ℝ)) = 62 := by
    rw [roundHalfEven, if_pos hfract,
      show (1000 : ℝ) * (1/16) = 62.5 by norm_num, hround]
    norm_num
  have hval : trust_score c7Now 0 none = 62/1000 := by
    rw [trust_score]
    simp only [hage]
    rw [show ((2:ℝ) ^ (-(21/7 : ℝ))) * qualityFactor none = 1/16 by
      have := hprod
      rw [recencyFactor] at this
      linarith [this]]
    rw [pyRound3, hhe]
    norm_num
  rw [hval, hprod]
  norm_num

/-- C7 (amended): the trust score the code computes is the three-decimal
rounding of `recency_factor · quality_factor`; hygiene's skills pass
evicts by trust only records with trust below 0.1 and no observed reuse
(every kept skill has trust at least 0.1 or a nonzero `used_count`),
while the experiences pass prunes on trust below 0.1 alone — a kept
experience is exactly a stream record with trust at least 0.1. -/
theorem trust_and_eviction_amended {α : Type} (trust : α → ℚ)
    (trustS : HygieneSkill → ℚ) (sha : String → String)
    (exps : List α) (skills : List HygieneSkill) :
    (∀ (now ts : Int) (succ : Option Bool),
      trust_score now ts succ =
        pyRound3 (recencyFactor (((now - ts : ℤ) : ℝ) / 86400000) * qualityFactor succ)) ∧
      (∀ e, e ∈ hygieneExperiencesKept trust exps ↔ e ∈ exps ∧ (1:ℚ)/10 ≤ trust e) ∧
      (∀ e ∈ hygieneSkillsKept trustS sha skills,
        (1:ℚ)/10 ≤ trustS e ∨ usedCountTruthy e = true) := by
  refine ⟨fun now ts succ => rfl, ?_, ?_⟩
  · intro e
    simp [hygieneExperiencesKept, List.mem_filter]
  · intro e he
    have hsub : e ∈ (skills.foldl (hygieneSkillStep trustS sha) ([], [])).2 :=
      List.drop_subset _ _ he
    exact hygieneSkillsFold_bounds trustS sha skills ([], [])
      (by intro v hv; cases hv) e hsub

/-- C7 amended-claim witness: a reused low-trust skill is kept by the
skills pass; a trusted experience is kept by the experiences pass. -/
theorem trust_and_eviction_amended_witness :
    (() ∈ hygieneExperiencesKept (fun _ => (1:ℚ)) [()] ↔
        () ∈ [()] ∧ (1:ℚ)/10 ≤ (1:ℚ)) ∧
      ((1:ℚ)/10 ≤ 0 ∨ usedCountTruthy ⟨none, "c", some 3⟩ = true) := by
  constructor
  · exact (trust_and_eviction_amended (fun _ => (1:ℚ)) (fun _ => (0:ℚ)) id
      [()] [⟨none, "c", some 3⟩]).2.1 ()
  · refine (trust_and_eviction_amended (fun _ => (1:ℚ)) (fun _ => (0:ℚ)) id
      [()] [⟨none, "c", some 3⟩]).2.2 ⟨none, "c", some 3⟩ ?_
    simp [hygieneSkillsKept, hygieneSkillStep, takeLast, usedCountTruthy]

/-! ## Autonomic tick scheduling (machina_autonomic/_engine.py tick,
machina_autonomic/_engine_burst.py autonomous_burst / pick_next_action,
machina_autonomic/_constants.py timing profiles)

The tick's stasis expiry/detection and level-gating logic, and the burst
picker's first action.  Wall-clock values are rationals; the level handlers
themselves are opaque (only whether they run matters here);
`cloud_rate_factor` is the constant 1.0 in the source.  The reflect
handler's internal skip-cooldown push (which can only delay its own next
run) is not modeled; it has no bearing on the test/heal levels. -/

structure Timings where
  l1_idle : ℚ
  l1_rate : ℚ
  l2_idle : ℚ
  l2_rate : ℚ
  l3_idle : ℚ
  l3_rate : ℚ
  l4_rate : ℚ
  l5_idle : ℚ
  l5_rate : ℚ
  stasisThreshold : Nat
  stasisCuriosityRate : ℚ
  burstIdle : ℚ
  burstRate : ℚ
  burstMaxSec : ℚ
  burstStallLimit : Nat
  webExploreRate : ℚ
deriving Repr

/-- Embeds `_TIMINGS_NORMAL`. -/
def timingsNormal : Timings :=
  ⟨180, 300, 300, 600, 600, 1800, 1800, 900, 1800, 6, 1800, 1800, 3600, 3600, 5, 1800⟩

/-- Embeds `_TIMINGS_DEV`. -/
def timingsDev : Timings :=
  ⟨60, 300, 120, 600, 180, 600, 1800, 180, 600, 5, 600, 180, 600, 3600, 5, 900⟩

structure LevelDone where
  reflect : ℚ
  test : ℚ
  heal : ℚ
  hygiene : ℚ
  curiosity : ℚ
  webExplore : ℚ
  burst : ℚ
deriving Repr

structure EngineState where
  paused : Bool
  stasis : Bool
  stasisEntered : ℚ
  prevHashes : List String
  levelDone : LevelDone
  inBurst : Bool
  burstL2Streak : Nat
deriving Repr

/-- Embeds the stasis auto-expiry at the top of `tick`:
`stasis_max_sec = 600` (hardcoded), requiring a truthy `_stasis_entered`. -/
def stasisExpiry (s : EngineState) (now : ℚ) : EngineState :=
  if s.stasis && !(s.stasisEntered == 0) && decide (600 ≤ now - s.stasisEntered) then
    { s with stasis := false, stasisEntered := 0, prevHashes := [] }
  else s

/-- Python `len(set(xs)) == 1` for a hash window. -/
def allSameNonempty (xs : List String) : Bool :=
  match xs with
  | [] => false
  | x :: rest => rest.all (· == x)

/-- Embeds the stasis detection in `tick`: append the current state hash,
keep the last `stasis_threshold` entries, and enter stasis (stamping
`_stasis_entered`) when the whole window is one identical hash. -/
def stasisDetect (s : EngineState) (t : Timings) (now : ℚ) (currentHash : String) :
    EngineState :=
  let hashes := s.prevHashes ++ [currentHash]
  let hashes :=
    if t.stasisThreshold < hashes.length then takeLast hashes t.stasisThreshold
    else hashes
  let s := { s with prevHashes := hashes }
  if hashes.length = t.stasisThreshold && allSameNonempty hashes && !s.stasis then
    { s with stasis := true, stasisEntered := now }
  else s

/-- Stasis expiry followed by detection — the state seen by the level
scheduling in the same tick. -/
def stasisPhase (s : EngineState) (t : Timings) (now : ℚ) (currentHash : String) :
    EngineState :=
  stasisDetect (stasisExpiry s now) t now currentHash

/-- Oracles for the burst picker's data-dependent branches: whether
`curiosity.can_run()` holds, whether the inbox queue has jobs, whether the
self-question fallback conditions hold, and whether the stimulus pool has
an item. -/
structure PickEnv where
  curiosityCanRun : Bool
  inboxHasJobs : Bool
  sqWouldFire : Bool
  stimulusAvailable : Bool
deriving Repr

/-- First element of maximal priority, as Python's stable
`sort(key=priority, reverse=True)` followed by `actions[0]`. -/
def argmaxFirst (xs : List (String × Nat)) : Option String :=
  (xs.foldl
    (fun best x =>
      match best with
      | none => some x
      | some b => if b.2 < x.2 then some x else some b)
    none).map Prod.fst

/-- Embeds `pick_next_action`: candidate levels with priorities, the
`stasis_ok = (not stasis) or in_burst` override, the halved rate factor in
burst, the 8x L2 backoff after three consecutive test turns, and the
self-question / stimulus fallbacks (through their oracles). -/
def pickNextAction (s : EngineState) (t : Timings) (now : ℚ) (env : PickEnv) :
    Option String :=
  let rateFactor : ℚ := if s.inBurst then 1/2 else 1
  let l2rf : ℚ := if s.inBurst && decide (3 ≤ s.burstL2Streak) then rateFactor * 8
    else rateFactor
  let stasisOk := !s.stasis || s.inBurst
  let d := s.levelDone
  let actions : List (String × Nat) :=
    (if stasisOk && decide (t.l2_rate * l2rf ≤ now - d.test) then [("test", 5)] else []) ++
    (if stasisOk && decide (t.l3_rate * rateFactor ≤ now - d.heal) then [("heal", 4)] else []) ++
    (if decide (t.webExploreRate * rateFactor ≤ now - d.webExplore) then
      [("web_explore", 3)] else []) ++
    (if env.curiosityCanRun then [("curiosity", 2)] else []) ++
    (if decide (t.l1_rate * rateFactor ≤ now - d.reflect) then [("reflect", 1)] else []) ++
    (if env.inboxHasJobs then [("inbox", 4)] else [])
  let actions :=
    if actions.isEmpty && env.sqWouldFire then actions ++ [("sq", 0)] else actions
  let actions :=
    if actions.isEmpty && env.stimulusAvailable then actions ++ [("stimulus", 0)]
    else actions
  argmaxFirst actions

/-- Embeds the entry of `autonomous_burst` up to its first
`pick_next_action` call: the session starts with `_in_burst = True` and a
zero L2 streak, and the first turn runs unless the time budget is zero,
the user is active (idle < 30) or the stall limit is zero. -/
def burstFirstAction (s : EngineState) (t : Timings) (now idle : ℚ) (env : PickEnv) :
    Option String :=
  if s.inBurst then none
  else if !decide (0 < t.burstMaxSec) then none
  else if decide (idle < 30) then none
  else if t.burstStallLimit = 0 then none
  else pickNextAction { s with inBurst := true, burstL2Streak := 0 } t now env

structure TickResult where
  pausedReturn : Bool
  stasisAtScheduling : Bool
  reflectRan : Bool
  testDirect : Bool
  healDirect : Bool
  hygieneRan : Bool
  curiosityRan : Bool
  webExploreRan : Bool
  burstStarted : Bool
  burstFirst : Option String
deriving Repr

/-- Embeds one `tick(…)`: early return when paused; stasis expiry then
detection; then the level gates in source order (reflect; test and heal
suppressed by stasis; hygiene; curiosity with its stasis-specific cadence;
web-explore; burst trigger), with `level_done` stamped as each level runs;
a triggered burst is represented by its first picked action. -/
def tickModel (s : EngineState) (t : Timings) (now idle : ℚ) (currentHash : String)
    (env : PickEnv) : TickResult :=
  if s.paused then ⟨true, s.stasis, false, false, false, false, false, false, false, none⟩
  else
    let s2 := stasisPhase s t now currentHash
    let d := s2.levelDone
    let reflectRan := decide (t.l1_idle ≤ idle) && decide (t.l1_rate ≤ now - d.reflect)
    let d := if reflectRan then { d with reflect := now } else d
    let testDirect := !s2.stasis && decide (t.l2_idle ≤ idle) &&
      decide (t.l2_rate ≤ now - d.test)
    let d := if testDirect then { d with test := now } else d
    let healDirect := !s2.stasis && decide (t.l3_idle ≤ idle) &&
      decide (t.l3_rate ≤ now - d.heal)
    let d := if healDirect then { d with heal := now } else d
    let hygieneRan := decide (t.l4_rate ≤ now - d.hygiene)
    let d := if hygieneRan then { d with hygiene := now } else d
    let curiosityRan :=
      if s2.stasis then decide (t.stasisCuriosityRate ≤ now - d.curiosity)
      else decide (t.l5_idle ≤ idle) && decide (t.l5_rate ≤ now - d.curiosity)
    let d := if curiosityRan then { d with curiosity := now } else d
    let webExploreRan := decide (t.l5_idle ≤ idle) &&
      decide (t.webExploreRate ≤ now - d.webExplore)
    let burstStarted := decide (t.burstIdle ≤ idle) && !s2.inBurst &&
      decide (t.burstRate ≤ now - d.burst)
    let burstFirst :=
      if burstStarted then burstFirstAction { s2 with levelDone := d } t now idle env
      else none
    ⟨false, s2.stasis, reflectRan, testDirect, healDirect, hygieneRan, curiosityRan,
      webExploreRan, burstStarted, burstFirst⟩

/-- C6 counterexample tick state: stasis entered 500 s ago (not yet
expired), the engine long idle, burst cooldown elapsed. -/
def c6State : EngineState :=
  ⟨false, true, 3500, ["h", "h", "h", "h", "h", "h"], ⟨0, 0, 0, 0, 0, 0, 0⟩, false, 0⟩

/-- C6 picker oracles: no curiosity, no inbox jobs, no fallbacks needed. -/
def c6Env : PickEnv := ⟨false, false, false, false⟩

/-- C6: the claim that no test or heal level runs in a tick whose stasis
flag is set is false: `pick_next_action` computes
`stasis_ok = (not stasis) or in_burst`, so a burst triggered inside the
tick runs the test handler as its first action while stasis is still set
(stasis is only cleared when the burst session ends). -/
theorem stasis_burst_test_counterexample :
    (tickModel c6State timingsNormal 4000 2000 "h" c6Env).stasisAtScheduling = true ∧
      (tickModel c6State timingsNormal 4000 2000 "h" c6Env).testDirect = false ∧
      (tickModel c6State timingsNormal 4000 2000 "h" c6Env).burstFirst = some "test" := by
  refine ⟨?_, ?_, ?_⟩ <;>
    simp only [tickModel, stasisPhase, stasisExpiry, stasisDetect, c6State, c6Env,
      timingsNormal, takeLast, allSameNonempty, burstFirstAction, pickNextAction,
      argmaxFirst] <;>
    norm_num

/-- C6 (amended): in every tick, the stasis flag seen at scheduling time
suppresses the directly scheduled test and heal levels; and in every
non-paused tick arriving at least `stasis_max_sec = 600` seconds after a
stamped stasis entry (with a window threshold of at least 2), the flag is
cleared by the auto-expiry before any level is scheduled.  Test and heal
may still run under stasis inside a burst session, whose picker bypasses
the stasis gate by design. -/
theorem tick_stasis_amended (s : EngineState) (t : Timings) (now idle : ℚ)
    (currentHash : String) (env : PickEnv) :
    ((tickModel s t now idle currentHash env).stasisAtScheduling = true →
      (tickModel s t now idle currentHash env).testDirect = false ∧
        (tickModel s t now idle currentHash env).healDirect = false) ∧
      (s.paused = false → s.stasis = true → s.stasisEntered ≠ 0 →
        600 ≤ now - s.stasisEntered → 2 ≤ t.stasisThreshold →
        (tickModel s t now idle currentHash env).stasisAtScheduling = false) := by
  constructor
  · intro hset
    by_cases hp : s.paused
    · simp [tickModel, if_pos hp]
    · simp only [tickModel, if_neg hp] at hset ⊢
      rw [hset]
      simp
  · intro hp hst hent h600 hth
    have hexp : stasisExpiry s now =
        { s with stasis := false, stasisEntered := 0, prevHashes := [] } := by
      rw [stasisExpiry, if_pos]
      simp only [hst, Bool.true_and, Bool.and_eq_true, Bool.not_eq_true',
        beq_eq_false_iff_ne, ne_eq, decide_eq_true_eq]
      exact ⟨hent, h600⟩
    have hdet : (stasisPhase s t now currentHash).stasis = false := by
      rw [stasisPhase, hexp, stasisDetect]
      simp only [List.nil_append]
      have hlen : ¬ t.stasisThreshold < ([currentHash] : List String).length := by
        simp only [List.length_singleton]
        omega
      rw [if_neg hlen]
      have hcond : ¬ (([currentHash] : List String).length = t.stasisThreshold &&
          allSameNonempty [currentHash] && !false) = true := by
        simp only [List.length_singleton, Bool.and_eq_true, decide_eq_true_eq]
        intro hc
        omega
      rw [if_neg hcond]
    simp only [tickModel, if_neg (by simp [hp] : ¬ s.paused = true)]
    exact hdet

/-- C6 amended-claim witness: the counterexample state, where expiry has
not yet struck, satisfies the suppression clause; the same state ticked
600 s after stasis entry has the flag cleared at scheduling. -/
theorem tick_stasis_amended_witness :
    ((tickModel c6State timingsNormal 4000 2000 "h" c6Env).testDirect = false ∧
        (tickModel c6State timingsNormal 4000 2000 "h" c6Env).healDirect = false) ∧
      (tickModel c6State timingsNormal 4200 2000 "h" c6Env).stasisAtScheduling = false := by
  constructor
  · refine (tick_stasis_amended c6State timingsNormal 4000 2000 "h" c6Env).1 ?_
    simp only [tickModel, stasisPhase, stasisExpiry, stasisDetect, c6State, c6Env,
      timingsNormal, takeLast, allSameNonempty]
    norm_num
  · refine (tick_stasis_amended c6State timingsNormal 4200 2000 "h" c6Env).2 rfl rfl
      (by norm_num [c6State]) (by norm_num [c6State]) (by norm_num [timingsNormal])

/-! ## Memory recall ranking (machina_learning_memory.py
_python_bm25_memory_search, _infer_topic_tag)

The boost stack applied on top of the BM25 scores: the per-candidate BM25
score is the oracle input (the BM25 engine itself is transcendental
log-based arithmetic over the corpus), exactly as the loop consumes
`(idx, bm25_score)` pairs from `bm25.query`.  Float constants 0.2/1.5/1.3
are the exact rationals they denote. -/

structure MemEntry where
  text : String
  importance : ℚ
  topicTag : String
  sessionId : String
deriving DecidableEq, Repr

/-- Embeds the keyword table of `_infer_topic_tag`, in dict order. -/
def topicKeywordTable : List (String × List String) :=
  [("birthday", ["생일", "birthday", "born"]),
   ("preference", ["좋아", "싫어", "prefer", "favorite"]),
   ("identity", ["이름", "나이", "직업", "name", "age", "job"]),
   ("system", ["서버", "gpu", "메모리", "디스크", "server", "memory"]),
   ("learning", ["배우", "공부", "learn", "study"]),
   ("project", ["프로젝트", "코드", "project", "code"]),
   ("schedule", ["일정", "약속", "schedule", "meeting"]),
   ("fact", [])]

/-- Embeds `_infer_topic_tag(text)`: first table tag with a keyword
occurring in the lowercased text, else "fact". -/
def inferTopicTag (text : String) : String :=
  let lower := strLower text
  match topicKeywordTable.find? (fun p => p.2.any (fun kw => strContains lower kw)) with
  | some p => p.1
  | none => "fact"

/-- Embeds the score computation of the ranking loop in
`_python_bm25_memory_search`: importance boost `(1 + 0.2·importance)`,
then ×1.5 when the caller passed a nonempty `session_id` equal to the
record's, then ×1.3 when the inferred query topic is not "fact" and equals
the record's `topic_tag`. -/
def memFinalScore (callerSession queryTopic : String) (e : MemEntry) (bm25 : ℚ) : ℚ :=
  let score := bm25 * (1 + (1/5) * e.importance)
  let score :=
    if strTruthy callerSession && e.sessionId == callerSession then score * (3/2)
    else score
  if queryTopic ≠ "fact" && e.topicTag == queryTopic then score * (13/10) else score

/-- Stable descending insertion by score, as Python's stable
`scored.sort(key=lambda x: -x[1])`. -/
def insertDesc (x : MemEntry × ℚ) : List (MemEntry × ℚ) → List (MemEntry × ℚ)
| [] => [x]
| y :: ys => if y.2 < x.2 then x :: y :: ys else y :: insertDesc x ys

/-- Stable descending sort by score. -/
def sortDescByScore (l : List (MemEntry × ℚ)) : List (MemEntry × ℚ) :=
  l.foldr insertDesc []

/-- Embeds the ranking phase of `_python_bm25_memory_search` over the BM25
hits: drop candidates scoring below 0.05, apply the boost stack, sort by
combined score descending, keep the top `limit`. -/
def rankMemEntries (callerSession query : String) (limit : Nat)
    (hits : List (MemEntry × ℚ)) : List (MemEntry × ℚ) :=
  let queryTopic := inferTopicTag query
  let scored := (hits.filter (fun h => !decide (h.2 < 1/20))).map
    (fun h => (h.1, memFinalScore callerSession queryTopic h.1 h.2))
  (sortDescByScore scored).take limit

lemma mem_insertDesc (x y : MemEntry × ℚ) (l : List (MemEntry × ℚ)) :
    y ∈ insertDesc x l ↔ y = x ∨ y ∈ l := by
  induction l with
  | nil => simp [insertDesc]
  | cons z zs ih =>
    simp only [insertDesc]
    split
    · simp
    · simp only [List.mem_cons, ih]
      tauto

lemma mem_sortDescByScore (y : MemEntry × ℚ) (l : List (MemEntry × ℚ)) :
    y ∈ sortDescByScore l ↔ y ∈ l := by
  induction l with
  | nil => simp [sortDescByScore]
  | cons z zs ih =>
    simp only [sortDescByScore, List.foldr_cons] at ih ⊢
    rw [mem_insertDesc, ih, List.mem_cons]

lemma pairwise_insertDesc (x : MemEntry × ℚ) (l : List (MemEntry × ℚ))
    (hl : l.Pairwise (fun a b => b.2 ≤ a.2)) :
    (insertDesc x l).Pairwise (fun a b => b.2 ≤ a.2) := by
  induction l with
  | nil => simp [insertDesc]
  | cons z zs ih =>
    simp only [insertDesc]
    rw [List.pairwise_cons] at hl
    split
    · rename_i hzx
      rw [List.pairwise_cons]
      refine ⟨?_, List.pairwise_cons.mpr hl⟩
      intro u hu
      rw [List.mem_cons] at hu
      rcases hu with hu | hu
      · rw [hu]
        exact hzx.le
      · exact le_trans (hl.1 u hu) hzx.le
    · rename_i hzx
      rw [List.pairwise_cons]
      constructor
      · intro u hu
        rw [mem_insertDesc] at hu
        rcases hu with hu | hu
        · rw [hu]
          exact le_of_not_lt hzx
        · exact hl.1 u hu
      · exact ih hl.2

lemma pairwise_sortDescByScore (l : List (MemEntry × ℚ)) :
    (sortDescByScore l).Pairwise (fun a b => b.2 ≤ a.2) := by
  induction l with
  | nil => simp [sortDescByScore]
  | cons z zs ih =>
    simp only [sortDescByScore, List.foldr_cons] at ih ⊢
    exact pairwise_insertDesc z _ ih

/-- C9 counterexample entry: a plain fact record. -/
def c9Entry : MemEntry := ⟨"note", 2, "fact", "s0"⟩

/-- C9: the claim that the final score is further multiplied by 1.3
whenever the inferred query topic matches the record's topic tag is false:
for a query inferring the default topic "fact" and a record tagged "fact"
(a match), the code skips the boost — the multiplier applies only when the
query topic is not "fact". -/
theorem memory_topic_boost_counterexample :
    inferTopicTag "zz" = "fact" ∧ c9Entry.topicTag = inferTopicTag "zz" ∧
      memFinalScore "s1" (inferTopicTag "zz") c9Entry 1 ≠
        1 * (1 + (1/5) * c9Entry.importance) * (13/10) := by
  refine ⟨by decide, by decide, ?_⟩
  have h : inferTopicTag "zz" = "fact" := by decide
  rw [h]
  simp only [memFinalScore, c9Entry]
  norm_num [strTruthy]
  rw [if_neg (by decide)]
  norm_num

/-- C9 (amended): every ranked candidate's score is its BM25 score (at
least 0.05, lower candidates are dropped) times `(1 + 0.2·importance)`,
times 1.5 when the caller's session id is nonempty and equals the
record's, times 1.3 when the inferred query topic is distinct from the
default "fact" and equals the record's topic tag; the returned list is
ordered by this combined score, descending. -/
theorem memory_ranking_amended (callerSession query : String) (limit : Nat)
    (hits : List (MemEntry × ℚ)) :
    (∀ p ∈ rankMemEntries callerSession query limit hits,
      ∃ b, (p.1, b) ∈ hits ∧ ¬(b < 1/20) ∧
        p.2 = memFinalScore callerSession (inferTopicTag query) p.1 b) ∧
      (rankMemEntries callerSession query limit hits).Pairwise
        (fun a b => b.2 ≤ a.2) ∧
      (∀ (e : MemEntry) (bm : ℚ),
        memFinalScore callerSession (inferTopicTag query) e bm =
          bm * (1 + (1/5) * e.importance) *
            (if strTruthy callerSession = true ∧ e.sessionId = callerSession then 3/2
              else 1) *
            (if inferTopicTag query ≠ "fact" ∧ e.topicTag = inferTopicTag query then 13/10
              else 1)) := by
  refine ⟨?_, ?_, ?_⟩
  · intro p hp
    have hp2 := List.take_subset _ _ hp
    rw [mem_sortDescByScore, List.mem_map] at hp2
    obtain ⟨h, hh, hmap⟩ := hp2
    rw [List.mem_filter] at hh
    have hp1 : p.1 = h.1 := by rw [← hmap]
    refine ⟨h.2, ?_, ?_, ?_⟩
    · rw [hp1]
      exact hh.1
    · have := hh.2
      rw [Bool.not_eq_true'] at this
      exact of_decide_eq_false this
    · rw [hp1, ← hmap]
  · exact (pairwise_sortDescByScore _).sublist (List.take_sublist _ _)
  · intro e bm
    simp only [memFinalScore, Bool.and_eq_true, beq_iff_eq, decide_eq_true_eq, ne_eq]
    split_ifs <;> ring

/-- C9 amended-claim witness: a two-candidate ranking evaluated concretely. -/
theorem memory_ranking_amended_witness :
    (∃ b, ((⟨"note", 2, "fact", "s0"⟩ : MemEntry), b) ∈
        [((⟨"note", 2, "fact", "s0"⟩ : MemEntry), (1:ℚ))] ∧ ¬(b < 1/20) ∧
        (7/5 : ℚ) = memFinalScore "s1" (inferTopicTag "zz") ⟨"note", 2, "fact", "s0"⟩ b) ∧
      (rankMemEntries "s1" "zz" 5 [((⟨"note", 2, "fact", "s0"⟩ : MemEntry), (1:ℚ))]).Pairwise
        (fun a b => b.2 ≤ a.2) := by
  constructor
  · have happ := (memory_ranking_amended "s1" "zz" 5
      [((⟨"note", 2, "fact", "s0"⟩ : MemEntry), (1:ℚ))]).1
      ((⟨"note", 2, "fact", "s0"⟩ : MemEntry), (7/5 : ℚ))
    refine happ ?_
    have htag : inferTopicTag "zz" = "fact" := by decide
    have hscore : memFinalScore "s1" "fact" ⟨"note", 2, "fact", "s0"⟩ 1 = 7/5 := by
      simp only [memFinalScore]
      rw [if_neg (by decide), if_neg (by decide)]
      norm_num
    have h1 : List.filter (fun h => !decide (h.2 < (1:ℚ)/20))
        [((⟨"note", 2, "fact", "s0"⟩ : MemEntry), (1:ℚ))] =
        [((⟨"note", 2, "fact", "s0"⟩ : MemEntry), (1:ℚ))] := by
      rw [List.filter_cons]
      norm_num
    simp only [rankMemEntries, htag, h1, List.map_cons, List.map_nil, hscore,
      sortDescByScore, List.foldr_cons, List.foldr_nil, insertDesc]
    simp [List.take]
  · exact (memory_ranking_amended "s1" "zz" 5
      [((⟨"note", 2, "fact", "s0"⟩ : MemEntry), (1:ℚ))]).2.1

/-! ## Insight extraction (machina_learning.py _extract_insights)

The ExpeL-style rules pipeline: tool statistics and failure typing over the
last-30 experience window, rule synthesis, the quality gate
`0.4·data_score + 0.6·specificity ≥ 0.3` (three-decimal rounding as in the
source), and the dedup gate against recent `rules` insights.  Lines are the
outcomes of `json.loads` per stripped line (`none` = parse failure, still
counted by the window length); float ratio comparisons are exact rationals. -/

structure Exp where
  toolUsed : Option String
  intentType : Option String
  success : Bool
  resultPreview : String
  userRequest : String
deriving DecidableEq, Repr

/-- A record of the insights stream as read back by the dedup check and
written on emission. -/
structure InsightRec where
  type : String
  rules : List String
  qualityScore : ℚ
  totalExperiences : Nat
  importance : Nat
  ts_ms : Int
deriving DecidableEq, Repr

/-- Python `e.get("tool_used", "") or e.get("intent_type", "chat")`. -/
def expTool (e : Exp) : String :=
  let a := e.toolUsed.getD ""
  if a ≠ "" then a else e.intentType.getD "chat"

/-- Python `s.get("tool_used", "") or s.get("intent_type", "")` (the
success-pattern variant, with no "chat" default). -/
def expTool2 (e : Exp) : String :=
  let a := e.toolUsed.getD ""
  if a ≠ "" then a else e.intentType.getD ""

/-- Increment a tool's ok/fail counters in an insertion-ordered
association list (Python dict `setdefault` + update). -/
def bumpStats : List (String × Nat × Nat) → String → Bool → List (String × Nat × Nat)
| [], tool, ok => [(tool, if ok then (1, 0) else (0, 1))]
| s :: rest, tool, ok =>
  if s.1 == tool then
    (s.1, if ok then (s.2.1 + 1, s.2.2) else (s.2.1, s.2.2 + 1)) :: rest
  else s :: bumpStats rest tool ok

/-- Parsed records of the window, in order. -/
def parsedExps (lines : List (Option Exp)) : List Exp := lines.filterMap id

/-- Embeds the `tool_stats` accumulation. -/
def toolStats (parsed : List Exp) : List (String × Nat × Nat) :=
  parsed.foldl (fun st e => bumpStats st (expTool e) e.success) []

/-- ASCII apostrophe, as the source's rule strings quote tool names. -/
def sqch : String := ⟨[Char.ofNat 39]⟩

/-- Rule string `AVOID: '<tool>' fails often (<fail>/<total>). …`. -/
def avoidRule (tool : String) (fail total : Nat) : String :=
  "AVOID: " ++ sqch ++ tool ++ sqch ++ " fails often (" ++ toString fail ++ "/" ++
    toString total ++ "). Try alternative tools."

/-- Rule string `PREFER: '<tool>' is reliable (<ok>/<total> success).`. -/
def preferRule (tool : String) (ok total : Nat) : String :=
  "PREFER: " ++ sqch ++ tool ++ sqch ++ " is reliable (" ++ toString ok ++ "/" ++
    toString total ++ " success)."

/-- Rule string `PATTERN: '<ftype>' errors repeat (<count>x). …`. -/
def patternRule (ftype : String) (count : Nat) : String :=
  "PATTERN: " ++ sqch ++ ftype ++ sqch ++ " errors repeat (" ++ toString count ++
    "x). Check input format before execution."

/-- Rule string `WORKS: '<tool>' succeeds for requests like: <req>`. -/
def worksRule (tool req : String) : String :=
  "WORKS: " ++ sqch ++ tool ++ sqch ++ " succeeds for requests like: " ++ req

/-- Embeds the per-tool rule synthesis: AVOID when a tool with at least
three uses fails more than half the time, else PREFER when it succeeds
more than 80% of the time. -/
def toolRules (stats : List (String × Nat × Nat)) : List String :=
  stats.filterMap (fun s =>
    let ok := s.2.1
    let fail := s.2.2
    let total := ok + fail
    if 3 ≤ total && total < 2 * fail then some (avoidRule s.1 fail total)
    else if 3 ≤ total && 4 * total < 5 * ok then some (preferRule s.1 ok total)
    else none)

/-- Embeds the failure-preview classification into parse/timeout/runtime. -/
def classifyFail (e : Exp) : Option String :=
  let preview := strLower (strTake e.resultPreview 100)
  if strContains preview "파싱 실패" || strContains preview "json" then some "parse"
  else if strContains preview "timeout" then some "timeout"
  else if strContains (strTake preview 30) "error" then some "runtime"
  else none

/-- Increment a counter in an insertion-ordered association list. -/
def bumpCount : List (String × Nat) → String → List (String × Nat)
| [], k => [(k, 1)]
| c :: rest, k => if c.1 == k then (c.1, c.2 + 1) :: rest else c :: bumpCount rest k

/-- Embeds the `fail_types` accumulation over the failure records. -/
def failTypes (failures : List Exp) : List (String × Nat) :=
  failures.foldl
    (fun fts e =>
      match classifyFail e with
      | some ft => bumpCount fts ft
      | none => fts)
    []

/-- Embeds the PATTERN rules: one per failure type repeating at least
twice. -/
def patternRules (fts : List (String × Nat)) : List String :=
  fts.filterMap (fun c => if 2 ≤ c.2 then some (patternRule c.1 c.2) else none)

/-- Append a request under its tool key in an insertion-ordered
association list (Python dict `setdefault(key, []).append(req)`). -/
def bumpGroup : List (String × List String) → String → String →
    List (String × List String)
| [], k, r => [(k, [r])]
| g :: rest, k, r =>
  if g.1 == k then (g.1, g.2 ++ [r]) :: rest else g :: bumpGroup rest k r

/-- Embeds the `success_patterns` accumulation over the last ten
successes: group truncated requests by tool, skipping records without a
tool or request. -/
def successPatterns (items : List Exp) : List (String × List String) :=
  items.foldl
    (fun gs e =>
      let req := strTake e.userRequest 80
      let tool := expTool2 e
      if tool ≠ "" && req ≠ "" then bumpGroup gs tool req else gs)
    []

/-- Embeds the WORKS rules: one per tool with at least two grouped
requests, quoting the first request truncated to 50 characters. -/
def worksRules (groups : List (String × List String)) : List String :=
  groups.filterMap (fun g =>
    if 2 ≤ g.2.length then some (worksRule g.1 (strTake (g.2.headD "") 50)) else none)

/-- The rule list of one extraction pass over the window, after the
`r and len(r) > 10` quality filter. -/
def windowRules (lines : List (Option Exp)) : List String :=
  let parsed := parsedExps (takeLast lines 30)
  let stats := toolStats parsed
  let failures := parsed.filter (fun e => !e.success)
  let successes := parsed.filter (fun e => e.success)
  (toolRules stats ++ patternRules (failTypes failures) ++
      worksRules (successPatterns (takeLast successes 10))).filter
    (fun r => r ≠ "" && decide (10 < r.length))

/-- Specificity markers probed by the quality score. -/
def ruleMarkers : List String := ["PREFER", "AVOID", "PATTERN"]

/-- A rule counting toward specificity: it contains one of the markers. -/
def isSpecificRule (r : String) : Bool := ruleMarkers.any (fun m => strContains r m)

/-- Embeds `data_score = min(len(recent) / 30.0, 1.0)`. -/
def windowDataScore (lines : List (Option Exp)) : ℚ :=
  min (((takeLast lines 30).length : ℚ) / 30) 1

/-- Embeds `specificity = (#rules with a marker) / max(len(rules), 1)`. -/
def windowSpecificity (lines : List (Option Exp)) : ℚ :=
  ((windowRules lines).countP isSpecificRule : ℚ) /
    ((max (windowRules lines).length 1 : ℕ) : ℚ)

/-- Python integer `round` on a rational: nearest, ties to even. -/
def roundHalfEvenQ (x : ℚ) : ℤ :=
  if Int.fract x = 1/2 then 2 * round (x / 2) else round x

/-- Python `round(x, 3)` on a rational. -/
def pyRound3Q (x : ℚ) : ℚ := (roundHalfEvenQ (1000 * x) : ℚ) / 1000

/-- Containment overlap used by the dedup gate:
`len(new ∩ old) / max(len(new), 1)`. -/
def rulesOverlap (rulesSet existingSet : Finset String) : ℚ :=
  ((rulesSet ∩ existingSet).card : ℚ) / ((max rulesSet.card 1 : ℕ) : ℚ)

/-- Embeds the emission decision of `_extract_insights`: synthesize rules
from the window, refuse an empty rule list, gate on the rounded quality
score, skip when the new rule set overlaps at least 60% with any recent
`rules` insight's set, else append the insight (returned here). -/
def extractInsight (now : Int) (lines : List (Option Exp))
    (existing : List InsightRec) : Option InsightRec :=
  let recent := takeLast lines 30
  let rules := windowRules lines
  if rules.isEmpty then none
  else
    let q := pyRound3Q (2/5 * windowDataScore lines + 3/5 * windowSpecificity lines)
    if q < 3/10 then none
    else
      let rulesSet := (rules.take 10).toFinset
      let skip := existing.any (fun ei =>
        ei.type == "rules" &&
          (let existingSet := ei.rules.toFinset
           0 < rulesSet.card && 0 < existingSet.card &&
             decide ((3:ℚ)/5 ≤ rulesOverlap rulesSet existingSet)))
      if skip then none
      else some ⟨"rules", rules.take 10, q, recent.length, rules.length, now⟩

/-- Jaccard similarity of two rule sets, as the spec's dedup criterion
names it. -/
def jaccardSim (a b : Finset String) : ℚ :=
  if (a ∪ b).card = 0 then 0 else ((a ∩ b).card : ℚ) / ((a ∪ b).card : ℚ)

lemma le_of_roundHalfEvenQ_ge (x : ℚ) (m : ℤ) (h : m ≤ roundHalfEvenQ x) :
    (m : ℚ) - 1/2 ≤ x := by
  rw [roundHalfEvenQ] at h
  split at h
  · rename_i htie
    have hfl : x = ⌊x⌋ + 1/2 := by
      have hx : x - ⌊x⌋ = 1/2 := htie
      linarith
    have h1 : (round (x/2) : ℚ) ≤ x/2 + 1/2 := by
      have habs := abs_sub_round (x/2)
      rw [abs_le] at habs
      linarith [habs.1]
    have h2 : 2 * round (x/2) ≤ ⌊x⌋ + 1 := by
      by_contra hc
      push_neg at hc
      have hc' : ⌊x⌋ + 2 ≤ 2 * round (x/2) := by omega
      have hc2 : ((⌊x⌋ : ℚ)) + 2 ≤ 2 * (round (x/2) : ℚ) := by exact_mod_cast hc'
      linarith [h1, hfl.symm.le]
    have h3 : (m : ℚ) ≤ (⌊x⌋ : ℚ) + 1 := by
      have : m ≤ ⌊x⌋ + 1 := le_trans h h2
      exact_mod_cast this
    linarith [hfl.symm.le]
  · rw [round_eq] at h
    have h1 : ((⌊x + 1/2⌋ : ℤ) : ℚ) ≤ x + 1/2 := Int.floor_le _
    have h2 : (m : ℚ) ≤ ((⌊x + 1/2⌋ : ℤ) : ℚ) := by exact_mod_cast h
    linarith

lemma strContains_of_prefix (s p : String) (h : p.data <+: s.data) :
    strContains s p = true := by
  rw [strContains]
  cases hs : s.data with
  | nil =>
    rw [hs] at h
    have : p.data = [] := List.prefix_nil.mp h
    simp [containsAux, this]
  | cons c rest =>
    rw [hs] at h
    simp only [containsAux, Bool.or_eq_true]
    exact Or.inl ((listPrefixOf_iff p.data (c :: rest)).mpr h)

lemma isPrefix_append_right {l₁ l₂ : List Char} (l₃ : List Char) (h : l₁ <+: l₂) :
    l₁ <+: l₂ ++ l₃ :=
  h.trans (l₂.prefix_append l₃)

lemma avoidRule_specific (tool : String) (f t : Nat) :
    isSpecificRule (avoidRule tool f t) = true := by
  have hm : strContains (avoidRule tool f t) "AVOID" = true := by
    apply strContains_of_prefix
    simp only [avoidRule, String.data_append, List.append_assoc]
    exact isPrefix_append_right _ (by decide : "AVOID".data <+: "AVOID: ".data)
  simp only [isSpecificRule, ruleMarkers, List.any_cons, List.any_nil, hm,
    Bool.or_true, Bool.true_or, Bool.or_false]

lemma preferRule_specific (tool : String) (o t : Nat) :
    isSpecificRule (preferRule tool o t) = true := by
  have hm : strContains (preferRule tool o t) "PREFER" = true := by
    apply strContains_of_prefix
    simp only [preferRule, String.data_append, List.append_assoc]
    exact isPrefix_append_right _ (by decide : "PREFER".data <+: "PREFER: ".data)
  simp only [isSpecificRule, ruleMarkers, List.any_cons, List.any_nil, hm,
    Bool.or_true, Bool.true_or, Bool.or_false]

lemma patternRule_specific (ft : String) (c : Nat) :
    isSpecificRule (patternRule ft c) = true := by
  have hm : strContains (patternRule ft c) "PATTERN" = true := by
    apply strContains_of_prefix
    simp only [patternRule, String.data_append, List.append_assoc]
    exact isPrefix_append_right _ (by decide : "PATTERN".data <+: "PATTERN: ".data)
  simp only [isSpecificRule, ruleMarkers, List.any_cons, List.any_nil, hm,
    Bool.or_true, Bool.true_or, Bool.or_false]

lemma toolRules_specific (stats : List (String × Nat × Nat)) :
    ∀ r ∈ toolRules stats, isSpecificRule r = true := by
  intro r hr
  rw [toolRules, List.mem_filterMap] at hr
  obtain ⟨s, _, hs⟩ := hr
  dsimp only at hs
  split at hs
  · rw [Option.some_inj] at hs
    rw [← hs]
    exact avoidRule_specific ..
  · split at hs
    · rw [Option.some_inj] at hs
      rw [← hs]
      exact preferRule_specific ..
    · cases hs

lemma patternRules_specific (fts : List (String × Nat)) :
    ∀ r ∈ patternRules fts, isSpecificRule r = true := by
  intro r hr
  rw [patternRules, List.mem_filterMap] at hr
  obtain ⟨c, _, hc⟩ := hr
  split at hc
  · rw [Option.some_inj] at hc
    rw [← hc]
    exact patternRule_specific ..
  · cases hc

/-- Total number of grouped requests across all success-pattern groups. -/
def sumSizes (gs : List (String × List String)) : Nat :=
  (gs.map (fun g => g.2.length)).sum

lemma bumpGroup_sumSizes (gs : List (String × List String)) (k r : String) :
    sumSizes (bumpGroup gs k r) = sumSizes gs + 1 := by
  induction gs with
  | nil => simp [bumpGroup, sumSizes]
  | cons g rest ih =>
    simp only [bumpGroup]
    split
    · simp [sumSizes]
      omega
    · simp only [sumSizes, List.map_cons, List.sum_cons] at ih ⊢
      omega

lemma successPatterns_sumSizes (items : List Exp) :
    sumSizes (successPatterns items) ≤ items.length := by
  have aux : ∀ (its : List Exp) (gs : List (String × List String)),
      sumSizes (its.foldl
        (fun gs e =>
          let req := strTake e.userRequest 80
          let tool := expTool2 e
          if tool ≠ "" && req ≠ "" then bumpGroup gs tool req else gs)
        gs) ≤ sumSizes gs + its.length := by
    intro its
    induction its with
    | nil => intro gs; simp
    | cons e rest ih =>
      intro gs
      rw [List.foldl_cons]
      refine le_trans (ih _) ?_
      simp only [List.length_cons]
      split
      · rw [bumpGroup_sumSizes]
        omega
      · omega
  simpa [successPatterns, sumSizes] using aux items []

lemma worksRules_length (groups : List (String × List String)) :
    2 * (worksRules groups).length ≤ sumSizes groups := by
  induction groups with
  | nil => simp [worksRules, sumSizes]
  | cons g rest ih =>
    rw [worksRules, List.filterMap_cons]
    by_cases hg : 2 ≤ g.2.length
    · rw [if_pos hg]
      simp only [List.length_cons, sumSizes, List.map_cons, List.sum_cons]
      simp only [worksRules, sumSizes] at ih
      omega
    · rw [if_neg hg]
      simp only [sumSizes, List.map_cons, List.sum_cons]
      simp only [worksRules, sumSizes] at ih
      omega

lemma takeLast_length_le {α : Type} (l : List α) (n : Nat) :
    (takeLast l n).length ≤ n := by
  simp only [takeLast, List.length_drop]
  omega

lemma windowRules_nonspecific_le (lines : List (Option Exp)) :
    (windowRules lines).countP (fun r => !isSpecificRule r) ≤ 5 := by
  rw [windowRules]
  set parsed := parsedExps (takeLast lines 30) with hp
  set stats := toolStats parsed with hstats
  set fts := failTypes (parsed.filter (fun e => !e.success)) with hfts
  set groups := successPatterns (takeLast (parsed.filter (fun e => e.success)) 10)
    with hgroups
  calc (((toolRules stats ++ patternRules fts ++ worksRules groups).filter
          (fun r => r ≠ "" && decide (10 < r.length))).countP
        (fun r => !isSpecificRule r))
      ≤ (toolRules stats ++ patternRules fts ++ worksRules groups).countP
          (fun r => !isSpecificRule r) := by
        rw [List.countP_filter]
        apply List.countP_mono_left
        intro a _ ha
        rw [Bool.and_eq_true] at ha
        exact ha.1
    _ = (toolRules stats).countP (fun r => !isSpecificRule r) +
          (patternRules fts).countP (fun r => !isSpecificRule r) +
          (worksRules groups).countP (fun r => !isSpecificRule r) := by
        rw [List.countP_append, List.countP_append]
    _ ≤ 0 + 0 + (worksRules groups).length := by
        have h1 : (toolRules stats).countP (fun r => !isSpecificRule r) = 0 := by
          rw [List.countP_eq_zero]
          intro r hr
          simp [toolRules_specific stats r hr]
        have h2 : (patternRules fts).countP (fun r => !isSpecificRule r) = 0 := by
          rw [List.countP_eq_zero]
          intro r hr
          simp [patternRules_specific fts r hr]
        rw [h1, h2]
        simp [List.countP_le_length]
    _ ≤ 5 := by
        have hsum := successPatterns_sumSizes
          (takeLast (parsed.filter (fun e => e.success)) 10)
        rw [← hgroups] at hsum
        have hlen := takeLast_length_le (parsed.filter (fun e => e.success)) 10
        have hw := worksRules_length groups
        omega

lemma quality_round_exact (w n k : Nat) (hn : 1 ≤ n) (hk : k ≤ n)
    (hnk : n - k ≤ 5) (hw : w ≤ 30)
    (hq : 3/10 ≤ pyRound3Q (2/5 * min ((w:ℚ)/30) 1 + 3/5 * ((k:ℚ)/((max n 1 : ℕ) : ℚ)))) :
    3/10 ≤ 2/5 * min ((w:ℚ)/30) 1 + 3/5 * ((k:ℚ)/((max n 1 : ℕ) : ℚ)) := by
  have hmax : (max n 1 : ℕ) = n := by omega
  rw [hmax] at hq ⊢
  have hmin : min ((w:ℚ)/30) 1 = (w:ℚ)/30 := by
    apply min_eq_left
    rw [div_le_one (by norm_num)]
    exact_mod_cast hw
  rw [hmin] at hq ⊢
  by_contra hlt
  push_neg at hlt
  set raw : ℚ := 2/5 * ((w:ℚ)/30) + 3/5 * ((k:ℚ)/(n:ℚ)) with hraw
  have hN0 : (n : ℚ) ≠ 0 := by
    exact_mod_cast (by omega : n ≠ 0)
  have hNpos : (0 : ℚ) < n := by
    exact_mod_cast (by omega : 0 < n)
  have hge : (599:ℚ)/2000 ≤ raw := by
    rw [pyRound3Q] at hq
    have h300 : (300 : ℤ) ≤ roundHalfEvenQ (1000 * raw) := by
      have : (300 : ℚ) ≤ (roundHalfEvenQ (1000 * raw) : ℚ) := by linarith
      exact_mod_cast this
    have := le_of_roundHalfEvenQ_ge (1000 * raw) 300 h300
    push_cast at this
    linarith
  have hNraw : 1500 * (n:ℚ) * raw = 20 * (w:ℚ) * n + 900 * k := by
    rw [hraw]
    field_simp
    ring
  have hupper : 20 * (w:ℚ) * n + 900 * k < 450 * n := by
    rw [← hNraw]
    have := mul_lt_mul_of_pos_left hlt (by positivity : (0:ℚ) < 1500 * n)
    calc 1500 * (n:ℚ) * raw = 1500 * n * raw := by ring
      _ < 1500 * n * (3/10) := by
          exact mul_lt_mul_of_pos_left hlt (by positivity)
      _ = 450 * n := by ring
  have hlower : (1797:ℚ)/4 * n ≤ 20 * (w:ℚ) * n + 900 * k := by
    rw [← hNraw]
    calc (1797:ℚ)/4 * n = 1500 * n * (599/2000) := by ring
      _ ≤ 1500 * n * raw := by
          exact mul_le_mul_of_nonneg_left hge (by positivity)
      _ = 1500 * n * raw := rfl
  set C : ℤ := 45 * n - 2 * w * n - 90 * k with hC
  have h10C : (10 * C : ℚ) = 450 * n - (20 * (w:ℚ) * n + 900 * k) := by
    rw [hC]
    push_cast
    ring
  have hCpos : 1 ≤ C := by
    have : (0:ℚ) < 10 * C := by
      rw [h10C]
      linarith
    have : (0:ℤ) < 10 * C := by exact_mod_cast this
    omega
  have h40C : (40 * C : ℤ) ≤ 3 * n := by
    have : (40 * C : ℚ) ≤ 3 * n := by
      have h4 : (10 * C : ℚ) ≤ 3/4 * n := by
        rw [h10C]
        linarith
      linarith
    exact_mod_cast this
  have hwn : (0:ℤ) ≤ 2 * (w:ℤ) * (n:ℤ) := by positivity
  have hk5 : (n : ℤ) - 5 ≤ (k : ℤ) := by
    have h1 : n ≤ k + 5 := by omega
    have h2 : (n : ℤ) ≤ (k : ℤ) + 5 := by exact_mod_cast h1
    linarith
  have hCup : C ≤ 450 - 45 * (n:ℤ) := by
    rw [hC]
    linarith
  omega

lemma jaccardSim_lt_of_empty (A B : Finset String) (hA : 0 < A.card)
    (hB : B.card = 0) : jaccardSim A B < 3/5 := by
  rw [jaccardSim, Finset.card_eq_zero.mp hB]
  simp only [Finset.union_empty, Finset.inter_empty, Finset.card_empty,
    Nat.cast_zero, zero_div]
  rw [if_neg (by omega)]
  norm_num

lemma jaccardSim_lt_of_overlap_lt (A B : Finset String) (hA : 0 < A.card)
    (hov : rulesOverlap A B < 3/5) : jaccardSim A B < 3/5 := by
  have hAu : 0 < (A ∪ B).card :=
    lt_of_lt_of_le hA (Finset.card_le_card Finset.subset_union_left)
  rw [jaccardSim, if_neg (by omega)]
  refine lt_of_le_of_lt ?_ hov
  rw [rulesOverlap]
  have hmaxA : ((max A.card 1 : ℕ) : ℚ) = (A.card : ℚ) := by
    congr 1
    omega
  rw [hmaxA]
  apply div_le_div_of_nonneg_left
  · positivity
  · exact_mod_cast hA
  · exact_mod_cast Finset.card_le_card Finset.subset_union_left

/-- C8 (confirmed): whenever `_extract_insights` emits a `rules` insight,
the emitted rule set differs from every recent `rules` insight by more
than 40% under Jaccard similarity (the code's containment overlap bounds
the Jaccard ratio from above), AND the unrounded quality score
`0.4·data_score + 0.6·specificity` is at least 0.3 (the three-decimal
rounding cannot lift a lower raw score across the gate, because the
nonspecific WORKS rules are at most five and the resulting integer
constraints have no solution in the rounding gap). -/
theorem insight_emission_gates (now : Int) (lines : List (Option Exp))
    (existing : List InsightRec) (ins : InsightRec)
    (h : extractInsight now lines existing = some ins) :
    (∀ ei ∈ existing, ei.type = "rules" →
      jaccardSim ins.rules.toFinset ei.rules.toFinset < 3/5) ∧
      3/10 ≤ 2/5 * windowDataScore lines + 3/5 * windowSpecificity lines := by
  simp only [extractInsight] at h
  split at h
  · exact absurd h (by simp)
  · rename_i hne
    split at h
    · exact absurd h (by simp)
    · rename_i hq
      split at h
      · exact absurd h (by simp)
      · rename_i hskip
        rw [Option.some_inj] at h
        have hrules : ins.rules = (windowRules lines).take 10 := by rw [← h]
        have hnonnil : windowRules lines ≠ [] := by
          intro hcon
          rw [hcon] at hne
          simp at hne
        have hcardpos : 0 < ((windowRules lines).take 10).toFinset.card := by
          rw [Finset.card_pos]
          cases hwr : windowRules lines with
          | nil => exact absurd hwr hnonnil
          | cons a rest =>
            exact ⟨a, by simp [hwr]⟩
        constructor
        · intro ei hei htype
          rw [Bool.not_eq_true, List.any_eq_false] at hskip
          have hcond := hskip ei hei
          rw [Bool.not_eq_true] at hcond
          rw [Bool.and_eq_false_iff] at hcond
          rcases hcond with hcond | hcond
          · rw [beq_eq_false_iff_ne] at hcond
            exact absurd htype hcond
          · rw [Bool.and_eq_false_iff] at hcond
            rcases hcond with hcond | hcond
            · rw [Bool.and_eq_false_iff] at hcond
              rcases hcond with hcond | hcond
              · rw [decide_eq_false_iff_not] at hcond
                exact absurd hcardpos hcond
              · rw [decide_eq_false_iff_not, Nat.pos_iff_ne_zero, not_not] at hcond
                rw [hrules]
                exact jaccardSim_lt_of_empty _ _ hcardpos hcond
            · rw [decide_eq_false_iff_not, not_le] at hcond
              rw [hrules]
              exact jaccardSim_lt_of_overlap_lt _ _ hcardpos hcond
        · have hq2 : 3/10 ≤ pyRound3Q
              (2/5 * windowDataScore lines + 3/5 * windowSpecificity lines) :=
            not_lt.mp hq
          have hlen1 : 1 ≤ (windowRules lines).length := by
            cases hwr : windowRules lines with
            | nil => exact absurd hwr hnonnil
            | cons a rest => simp [hwr]
          have hkn : (windowRules lines).countP isSpecificRule ≤
              (windowRules lines).length := List.countP_le_length _
          have hnk : (windowRules lines).length -
              (windowRules lines).countP isSpecificRule ≤ 5 := by
            have hsplit := List.length_eq_countP_add_countP isSpecificRule
              (windowRules lines)
            have hns := windowRules_nonspecific_le lines
            have hsame : (windowRules lines).countP (fun r => !isSpecificRule r) =
                (windowRules lines).countP (fun a => decide ¬isSpecificRule a = true) := by
              apply List.countP_congr
              intro a _
              simp
            omega
          have hwle := takeLast_length_le lines 30
          have := quality_round_exact (takeLast lines 30).length
            (windowRules lines).length
            ((windowRules lines).countP isSpecificRule)
            hlen1 hkn hnk hwle
          rw [windowDataScore, windowSpecificity] at hq2 ⊢
          exact this hq2

/-- C8 witness window: three failed uses of one tool. -/
def c8Lines : List (Option Exp) :=
  List.replicate 3 (some ⟨some "t", none, false, "", ""⟩)

/-- C8 witness insight: the AVOID rule emitted from that window. -/
def c8Insight : InsightRec :=
  ⟨"rules", [avoidRule "t" 3 3], 16/25, 3, 1, 0⟩

lemma c8_extract_eval : extractInsight 0 c8Lines [] = some c8Insight := by
  have hrules : windowRules c8Lines = [avoidRule "t" 3 3] := by decide
  have hlen : (takeLast c8Lines 30).length = 3 := by decide
  have hds : windowDataScore c8Lines = 1/10 := by
    rw [windowDataScore, hlen]
    rw [min_eq_left (by norm_num)]
    norm_num
  have hspec : windowSpecificity c8Lines = 1 := by
    rw [windowSpecificity, hrules]
    rw [show ([avoidRule "t" 3 3].countP isSpecificRule) = 1 from by decide]
    norm_num
  have hq : pyRound3Q (2/5 * windowDataScore c8Lines +
      3/5 * windowSpecificity c8Lines) = 16/25 := by
    rw [hds, hspec]
    rw [show (2:ℚ)/5 * (1/10) + 3/5 * 1 = 16/25 by norm_num]
    rw [pyRound3Q, roundHalfEvenQ]
    rw [show (1000:ℚ) * (16/25) = 640 by norm_num]
    rw [if_neg (by norm_num [Int.fract])]
    rw [show round ((640:ℚ)) = 640 from by norm_num [round_eq]]
    norm_num
  rw [extractInsight]
  rw [if_neg (by rw [hrules]; simp)]
  rw [if_neg (by rw [hq]; norm_num)]
  rw [if_neg (by simp)]
  rw [Option.some_inj]
  rw [c8Insight]
  rw [hrules, hq, hlen]
  rfl

/-- C8 confirmed-claim witness: the theorem applied to a concrete emitting
window with no prior insights. -/
theorem insight_emission_gates_witness :
    (∀ ei ∈ ([] : List InsightRec), ei.type = "rules" →
        jaccardSim c8Insight.rules.toFinset ei.rules.toFinset < 3/5) ∧
      3/10 ≤ 2/5 * windowDataScore c8Lines + 3/5 * windowSpecificity c8Lines :=
  insight_emission_gates 0 c8Lines [] c8Insight c8_extract_eval

end Machina
